import Mathlib

/-!
# Verification of the terrain-generation core (threejs_map_generator)

Shallow embedding of the deterministic terrain-generation pipeline:
the multi-stream RNG (rng.js), the quantile sea-level solver (quantile.js),
Bridson Poisson-disk sampling (poisson.js), slope analysis (slope.js),
tree placement (treePlacement.js) and the generator pipeline
(terrainGeneratorV1_1.js, erosion.js).

Modelling conventions:
* JS numbers are modelled as `ℚ` (exact arithmetic); JS 32-bit integer
  operations (`^`, `>>>`, `Math.imul`) are modelled on `ℕ` with explicit
  `% 2 ^ 32`.
* Transcendental library functions (`Math.cos`, `Math.sin`, `Math.atan`,
  `Math.pow` with fractional exponent, `Math.sqrt`) have no exact rational
  counterpart; they are collected in a `MathPrims` parameter record and the
  theorems quantify over it.  `Math.sqrt dist < r` comparisons are modelled
  by the equivalent squared comparison `dist2 < r ^ 2` (both sides are
  nonnegative, so the two are equivalent over the reals).
* `Math.SQRT2` is the IEEE double closest to `√2`; it is kept as the exact
  rational value of that double (`sqrt2js`), whose square is `≥ 2` — the
  only fact the proofs use.
* Stateful JS (closures over an RNG, in-place array mutation) is modelled
  by explicit state passing; arrays are `List ℚ` in row-major order.
-/

/-! ## rng.js (`src/unnamed/part_000`): hashSeed, LCG, MultiStreamRNG -/

/-- `2^32`, the modulus of JS 32-bit integer operations. -/
def U32 : ℕ := 4294967296

/-- One step of the label mixing loop in `hashSeed`:
`hash ^= label.charCodeAt(i); hash = Math.imul(hash, 0x85ebca6b); hash ^= hash >>> 13;`. -/
def hashStep (h c : ℕ) : ℕ :=
  let h1 := (h ^^^ c) % U32
  let h2 := h1 * 0x85ebca6b % U32
  h2 ^^^ h2 / 2 ^ 13

/-- `hashSeed(seed, label)` from rng.js: MurmurHash3-like mix of the master
seed and the stream label (a JS string, modelled as its list of UTF-16 code
units).  Returns an unsigned 32-bit sub-seed. -/
def hashSeed (seed : ℕ) (label : List ℕ) : ℕ :=
  let h0 := (seed % U32) ^^^ 0x9e3779b9
  let h1 := label.foldl hashStep h0
  let h2 := h1 * 0xc2b2ae35 % U32
  h2 ^^^ h2 / 2 ^ 16

/-- The LCG state transition: `this.state = (this.state * 1664525 + 1013904223) >>> 0`. -/
def lcgNext (s : ℕ) : ℕ := (s * 1664525 + 1013904223) % U32

/-- LCG state after `n` calls to `next()`, starting from `new LCG(seed)`
(the constructor stores `seed >>> 0`). -/
def lcgState (seed : ℕ) : ℕ → ℕ
  | 0 => seed % U32
  | n + 1 => lcgNext (lcgState seed n)

/-- The value returned by the `n`-th call to `next()` (0-indexed) of a fresh
`LCG(seed)`: the updated state divided by `0x100000000`. -/
def lcgOut (seed : ℕ) (n : ℕ) : ℚ := (lcgState seed (n + 1) : ℚ) / (U32 : ℚ)

/-- `MultiStreamRNG.getStream(label)` derives the sub-seed of a named stream:
`hashSeed(this.masterSeed, label)`, and the stream is `new LCG(subSeed)`.
The sequence of `next()` values of the stream for `label` is therefore
`lcgOut (hashSeed masterSeed label)`. -/
def streamOut (masterSeed : ℕ) (label : List ℕ) (n : ℕ) : ℚ :=
  lcgOut (hashSeed masterSeed label) n

/-! ## quantile.js (second half of `src/src/slope.js`): findQuantile, solveSeaLevel -/

/-- `Array.from(data).sort((a, b) => a - b)`: a sorted copy of the data.
JS sort with a numeric ascending comparator is a stable sort; on rational
values the result is the (unique up to equal values) ascending reordering,
modelled by `List.mergeSort`. -/
def jsSorted (data : List ℚ) : List ℚ := data.mergeSort (fun a b => decide (a ≤ b))

/-- `findQuantile(data, quantile)` from quantile.js.
The JS function throws for `quantile < 0` or `quantile > 1`; that branch is
modelled as returning 0 and is never reached from `solveSeaLevel`, which
always passes a quantile in `[0,1]`. -/
def findQuantile (data : List ℚ) (quantile : ℚ) : ℚ :=
  if quantile < 0 ∨ 1 < quantile then 0
  else if data.length = 0 then 0
  else
    let sorted := jsSorted data
    if quantile = 0 then sorted.getD 0 0
    else if quantile = 1 then sorted.getD (sorted.length - 1) 0
    else
      let position : ℚ := quantile * ((sorted.length : ℚ) - 1)
      let lower : ℤ := ⌊position⌋
      let upper : ℤ := ⌈position⌉
      let weight : ℚ := position - (lower : ℚ)
      sorted.getD lower.toNat 0 * (1 - weight) + sorted.getD upper.toNat 0 * weight

/-- `Math.min(...elevationData)` for a nonempty list (the empty case yields
`Infinity` in JS and is never used by the solver on nonempty data). -/
def listMin : List ℚ → ℚ
  | [] => 0
  | x :: xs => xs.foldl min x

/-- `Math.max(...elevationData)` for a nonempty list. -/
def listMax : List ℚ → ℚ
  | [] => 0
  | x :: xs => xs.foldl max x

/-- The record returned by `solveSeaLevel`, together with the (possibly
mutated) elevation array: the `p == 0` branch raises cells in place, the
other branches leave the array unchanged. -/
structure SeaLevelResult where
  seaLevel : ℚ
  actualPercentage : ℚ
  cellsBelowSeaLevel : ℕ
  raised : ℕ
  elevationOut : List ℚ
  method : String
deriving DecidableEq, Repr

/-- `solveSeaLevel(elevationData, targetWaterPercentage, epsilon)` from
quantile.js.  `p == 0`: sea level `min − ε`, every cell below `min + ε`
is raised to `min + ε`.  `p >= 100`: sea level `max + ε`.  Otherwise the
`p/100` quantile of the height distribution is the sea level and the actual
coverage of cells `≤` the sea level is measured. -/
def solveSeaLevel (elevationData : List ℚ) (targetWaterPercentage epsilon : ℚ) :
    SeaLevelResult :=
  let totalCells := elevationData.length
  if targetWaterPercentage = 0 then
    let minHeight := listMin elevationData
    let seaLevel := minHeight - epsilon
    let raised := elevationData.countP (fun h => decide (h < minHeight + epsilon))
    let out := elevationData.map (fun h =>
      if h < minHeight + epsilon then minHeight + epsilon else h)
    ⟨seaLevel, 0, 0, raised, out, "0%_raise"⟩
  else if 100 ≤ targetWaterPercentage then
    let maxHeight := listMax elevationData
    ⟨maxHeight + epsilon, 100, totalCells, 0, elevationData, "100%_cover"⟩
  else
    let quantile := targetWaterPercentage / 100
    let seaLevel := findQuantile elevationData quantile
    let cellsBelow := elevationData.countP (fun h => decide (h ≤ seaLevel))
    ⟨seaLevel, (cellsBelow : ℚ) / (totalCells : ℚ) * 100, cellsBelow, 0,
      elevationData, "quantile"⟩

/-! ## Transcendental JS math functions, modelled as parameters

`Math.cos`, `Math.sin`, `Math.atan`, fractional `Math.pow`, `Math.sqrt` and
`Math.PI` have no exact rational values; every theorem quantifies over an
arbitrary interpretation, so nothing proved depends on their values. -/

/-- Record of the transcendental `Math` functions used by the pipeline. -/
structure MathPrims where
  cos : ℚ → ℚ
  sin : ℚ → ℚ
  /-- `Math.atan(m) * (180 / Math.PI)`: gradient magnitude to slope degrees. -/
  atanDeg : ℚ → ℚ
  /-- `Math.pow(b, e)` for non-integer base/exponent combinations. -/
  powQ : ℚ → ℚ → ℚ
  /-- `Math.sqrt` where the value itself (not only a comparison) is needed. -/
  sqrtQ : ℚ → ℚ
  /-- `Math.PI * 2`. -/
  twoPi : ℚ

/-! ## poisson.js: Bridson Poisson disk sampling

The JS `rng` closure is modelled as a stream `rng : ℕ → ℚ` together with a
draw counter threaded through the state; `Math.sqrt(d2) < minDistance` is
modelled as the equivalent `d2 < minDistance ^ 2`. -/

/-- A 2D sample point `{x, y}`. -/
structure Pt where
  x : ℚ
  y : ℚ
deriving DecidableEq, Repr

/-- The exact rational value of the IEEE-754 double `Math.SQRT2`
(`6369051672525773 * 2 ^ -52`, the double nearest to `√2`, slightly above it). -/
def sqrt2js : ℚ := 6369051672525773 / 4503599627370496

/-- The parameters of one `poissonDiskSampling(width, height, minDistance,
rng, maxAttempts, suitabilityMask)` call.  The mask returns a JS value used
for its truthiness; it is modelled as a `Bool`-valued function. -/
structure PoissonParams where
  width : ℚ
  height : ℚ
  minDistance : ℚ
  rng : ℕ → ℚ
  maxAttempts : ℕ
  mask : Option (ℚ → ℚ → Bool)

/-- `const cellSize = minDistance / Math.SQRT2`. -/
def cellSize (p : PoissonParams) : ℚ := p.minDistance / sqrt2js

/-- `const gridWidth = Math.ceil(width / cellSize)`. -/
def gridWidth (p : PoissonParams) : ℕ := (⌈p.width / cellSize p⌉).toNat

/-- `const gridHeight = Math.ceil(height / cellSize)`. -/
def gridHeight (p : PoissonParams) : ℕ := (⌈p.height / cellSize p⌉).toNat

/-- `gridIndex(x, y)`: the background-grid index of a coordinate pair, `-1`
when the cell coordinates fall outside the grid. -/
def gridIndex (p : PoissonParams) (x y : ℚ) : ℤ :=
  let gx := ⌊x / cellSize p⌋
  let gy := ⌊y / cellSize p⌋
  if gx < 0 ∨ (gridWidth p : ℤ) ≤ gx ∨ gy < 0 ∨ (gridHeight p : ℤ) ≤ gy then -1
  else gy * (gridWidth p : ℤ) + gx

/-- The mutable state of one sampling run: background grid, accepted
samples, active list, and the number of `rng()` draws consumed so far. -/
structure PState where
  grid : List (Option Pt)
  samples : List Pt
  active : List Pt
  k : ℕ
deriving Repr

/-- The 25 cell offsets of the 5×5 neighborhood scanned by `isValid`
(`for dy = -2..2, dx = -2..2`). -/
def neighborOffsets : List (ℤ × ℤ) :=
  (List.range 5).flatMap (fun dy => (List.range 5).map (fun dx => ((dx : ℤ) - 2, (dy : ℤ) - 2)))

/-- One neighbor check of the `isValid` 5×5 scan: the cell at offset `d`
from `(gx, gy)` is out of the grid, empty, or holds a point at distance at
least `minDistance` from `(x, y)` (squared comparison, equivalent to the JS
`sqrt` comparison). -/
def scanOk (p : PoissonParams) (grid : List (Option Pt)) (x y : ℚ) (gx gy : ℤ)
    (d : ℤ × ℤ) : Bool :=
  let nx := gx + d.1
  let ny := gy + d.2
  if nx < 0 ∨ (gridWidth p : ℤ) ≤ nx ∨ ny < 0 ∨ (gridHeight p : ℤ) ≤ ny then true
  else
    match grid.getD (ny * (gridWidth p : ℤ) + nx).toNat none with
    | none => true
    | some q => decide (p.minDistance ^ 2 ≤ (x - q.x) ^ 2 + (y - q.y) ^ 2)

/-- `isValid(x, y)`: in bounds, passes the suitability mask, and at least
`minDistance` from every point registered in the 5×5 grid neighborhood. -/
def isValid (p : PoissonParams) (grid : List (Option Pt)) (x y : ℚ) : Bool :=
  if x < 0 ∨ p.width ≤ x ∨ y < 0 ∨ p.height ≤ y then false
  else if (match p.mask with
           | some m => !(m x y)
           | none => false) then false
  else
    neighborOffsets.all (scanOk p grid x y ⌊x / cellSize p⌋ ⌊y / cellSize p⌋)

/-- `addPoint(x, y)`: push the point onto `samples` and `active` and
register it in the background grid when its grid index is nonnegative. -/
def addPoint (p : PoissonParams) (st : PState) (x y : ℚ) : PState :=
  let pt : Pt := ⟨x, y⟩
  let idx := gridIndex p x y
  { st with
    samples := st.samples ++ [pt]
    active := st.active ++ [pt]
    grid := if 0 ≤ idx then st.grid.set idx.toNat (some pt) else st.grid }

/-- The initial-point do-while loop: draw a random point, retry while the
mask rejects it; after more than 100 attempts fall back to the domain
center, returning `none` (JS `return []`) when the center also fails.
`remaining` counts the iterations left before the fallback (starts at 101);
the returned `ℕ` is the updated draw counter. -/
def initLoop (p : PoissonParams) : ℕ → ℕ → Option (ℚ × ℚ) × ℕ
  | _, 0 => (none, 0)
  | k, remaining + 1 =>
    let x := p.rng k * p.width
    let y := p.rng (k + 1) * p.height
    let k' := k + 2
    if remaining = 0 then
      let cx := p.width / 2
      let cy := p.height / 2
      match p.mask with
      | some m => if m cx cy then (some (cx, cy), k') else (none, k')
      | none => (some (cx, cy), k')
    else
      match p.mask with
      | some m => if m x y then (some (x, y), k') else initLoop p k' remaining
      | none => (some (x, y), k')

/-- One candidate attempt around the active point `pt`: draw an angle and a
radius in the annulus `[minDistance, 2*minDistance)`, accept the candidate
when `isValid`.  Returns the new state and whether the candidate was added. -/
def attemptStep (p : PoissonParams) (prims : MathPrims) (pt : Pt) (st : PState) :
    PState × Bool :=
  let angle := p.rng st.k * prims.twoPi
  let radius := p.minDistance + p.rng (st.k + 1) * p.minDistance
  let nx := pt.x + prims.cos angle * radius
  let ny := pt.y + prims.sin angle * radius
  let st' := { st with k := st.k + 2 }
  if isValid p st'.grid nx ny then (addPoint p st' nx ny, true) else (st', false)

/-- The `for (i = 0; i < maxAttempts; i++)` candidate loop, accumulating the
`found` flag. -/
def attemptsLoop (p : PoissonParams) (prims : MathPrims) (pt : Pt) :
    ℕ → PState → Bool → PState × Bool
  | 0, st, f => (st, f)
  | n + 1, st, f =>
    let r := attemptStep p prims pt st
    attemptsLoop p prims pt n r.1 (f || r.2)

/-- One iteration of the `while (active.length > 0)` loop: pick a random
active point, run `maxAttempts` candidate attempts, and splice the point out
of the active list when no candidate was accepted. -/
def mainStep (p : PoissonParams) (prims : MathPrims) (st : PState) : PState :=
  let index := (⌊p.rng st.k * (st.active.length : ℚ)⌋).toNat
  let point := st.active.getD index ⟨0, 0⟩
  let st1 : PState := { st with k := st.k + 1 }
  let r := attemptsLoop p prims point p.maxAttempts st1 false
  if r.2 then r.1
  else { r.1 with active := r.1.active.eraseIdx index }

/-- The active-list loop, with explicit fuel; `none` means the fuel ran out
before the active list emptied (shown unreachable for the fuel used by
`poissonDiskSampling`). -/
def mainLoop (p : PoissonParams) (prims : MathPrims) : ℕ → PState → Option PState
  | 0, st => if st.active.isEmpty then some st else none
  | fuel + 1, st =>
    if st.active.isEmpty then some st
    else mainLoop p prims fuel (mainStep p prims st)

/-- Fuel sufficient for termination: the measure of a state never exceeds
`2 * (number of grid cells) + 1` (each iteration adds at least one sample —
each occupying a fresh grid cell — or drops one active point). -/
def pdsFuel (p : PoissonParams) : ℕ := 2 * (gridWidth p * gridHeight p) + 1

/-- `poissonDiskSampling`: full run.  Returns the accepted samples and the
number of `rng()` draws consumed; `none` only when the fuel bound is hit,
which the termination theorem rules out for in-range RNGs. -/
def poissonDiskSampling (p : PoissonParams) (prims : MathPrims) :
    Option (List Pt × ℕ) :=
  match initLoop p 0 101 with
  | (none, k) => some ([], k)
  | (some (x, y), k) =>
    let st0 : PState :=
      addPoint p ⟨List.replicate (gridWidth p * gridHeight p) none, [], [], k⟩ x y
    match mainLoop p prims (pdsFuel p) st0 with
    | some st => some (st.samples, st.k)
    | none => none

/-- The result of `poissonDiskSampling` with the fuel-exhaustion case mapped
to the empty output, used by the callers in the pipeline. -/
def poissonRun (p : PoissonParams) (prims : MathPrims) : List Pt × ℕ :=
  (poissonDiskSampling p prims).getD ([], 0)

/-! ## Configuration record (config.js fields consumed by the embedded code) -/

/-- One noise band descriptor (`{octaves, frequency, gain, lacunarity, amplitude}`). -/
structure NoiseParams where
  octaves : ℕ
  frequency : ℚ
  gain : ℚ
  lacunarity : ℚ
  amplitude : ℚ

/-- The configuration fields read by the embedded pipeline
(`terrainGeneratorV1_1.js`, `treePlacement.js`).  Rendering/camera fields are
never read by the generation core and are omitted. -/
structure Config where
  SEED : ℕ
  MAP_WIDTH : ℕ
  MAP_HEIGHT : ℕ
  CELL_SIZE : ℚ
  ELEVATION_SCALE : ℚ
  ELEVATION_CURVE : String
  SEA_LEVEL : ℚ
  WATER_PERCENTAGE : ℚ
  WATER_EPSILON : ℚ
  WATER_TOLERANCE : ℚ
  LAKE_MIN_SPACING : ℚ
  LAKE_DEPTH_MIN : ℚ
  LAKE_DEPTH_MAX : ℚ
  LAKE_SHAPE_SQUARENESS : ℚ
  LAKE_EDGE_NOISE_AMP : ℚ
  NOISE_MACRO : NoiseParams
  NOISE_MESO : NoiseParams
  NOISE_MICRO : NoiseParams
  EROSION_ITERATIONS : ℕ
  EROSION_STRENGTH : ℚ
  FOREST_PERCENTAGE : ℚ
  TREE_MIN_SPACING : ℚ
  TREE_MAX_HEIGHT : ℚ
  TREE_MAX_SLOPE : ℚ
  TREE_BEACH_BUFFER : ℚ

/-- JS `v || d` on numbers: the default is taken when `v` is falsy (0). -/
def jsOr (v d : ℚ) : ℚ := if v = 0 then d else v

/-! ## slope.js: calculateSlopes -/

/-- `calculateSlopes(elevationData, width, height, cellSize)`: central
difference gradient with clamped boundary neighbors, magnitude through
`Math.sqrt`, converted to degrees through `Math.atan * (180/Math.PI)`
(the two transcendental steps are `prims.sqrtQ` and `prims.atanDeg`). -/
def calculateSlopes (prims : MathPrims) (elevationData : List ℚ)
    (width height : ℕ) (cellSize : ℚ) : List ℚ :=
  (List.range (width * height)).map (fun idx =>
    let x := idx % width
    let y := idx / width
    let hc := elevationData.getD idx 0
    let hLeft := if 0 < x then elevationData.getD (idx - 1) 0 else hc
    let hRight := if x < width - 1 then elevationData.getD (idx + 1) 0 else hc
    let hUp := if 0 < y then elevationData.getD (idx - width) 0 else hc
    let hDown := if y < height - 1 then elevationData.getD (idx + width) 0 else hc
    let dzdx := (hRight - hLeft) / (2 * cellSize)
    let dzdy := (hDown - hUp) / (2 * cellSize)
    prims.atanDeg (prims.sqrtQ (dzdx * dzdx + dzdy * dzdy)))

/-! ## treePlacement.js (second half of `src/src/terrainGeneratorV1_1.js`) -/

/-- The `terrainData` fields consumed by `generateTreePositions`. -/
structure TerrainData where
  elevation : List ℚ
  seaLevel : ℚ
  width : ℕ
  height : ℕ
  cellSize : ℚ

/-- A returned placement `{x, z, height}`. -/
structure TreePos where
  x : ℚ
  z : ℚ
  height : ℚ
deriving DecidableEq, Repr

/-- A candidate together with its selection score (local to
`selectBestTreePositions`). -/
structure ScoredPos where
  x : ℚ
  z : ℚ
  height : ℚ
  score : ℚ
deriving DecidableEq, Repr

/-- `createTreeSuitabilityMask` (the local one in treePlacement.js):
`0/1`-valued `Float32Array`; a cell is rejected when its height is below
`seaLevel + beachBuffer`, above `maxHeight`, or its slope exceeds
`maxSlope` (all three rejection tests are strict, so boundary values pass). -/
def createTreeSuitabilityMask (elevation slopes : List ℚ) (width height : ℕ)
    (seaLevel : ℚ) (cfg : Config) : List ℚ :=
  let minHeight := seaLevel + jsOr cfg.TREE_BEACH_BUFFER 2
  let maxHeight := jsOr cfg.TREE_MAX_HEIGHT 60
  let maxSlope := jsOr cfg.TREE_MAX_SLOPE 35
  (List.range (width * height)).map (fun i =>
    let h := elevation.getD i 0
    let s := slopes.getD i 0
    if h < minHeight then 0
    else if maxHeight < h then 0
    else if maxSlope < s then 0
    else 1)

/-- The relaxation pass of `generateTreePositions` (run when the strict mask
has zero suitable cells): fixed alternative thresholds
`relaxedMinHeight = seaLevel + 1.0` and `relaxedMaxSlope = 45`. -/
def relaxedTreeMask (elevation slopes : List ℚ) (n : ℕ)
    (seaLevel maxHeight : ℚ) : List ℚ :=
  (List.range n).map (fun i =>
    let h := elevation.getD i 0
    let s := slopes.getD i 0
    if seaLevel + 1 < h ∧ h < maxHeight ∧ s ≤ 45 then 1 else 0)

/-- `getHeightAt(worldX, worldZ, ...)`: bilinear interpolation of the height
field at a continuous position, with clamped cell indices. -/
def getHeightAt (worldX worldZ : ℚ) (elevation : List ℚ) (width height : ℕ)
    (cellSize : ℚ) : ℚ :=
  let cellX := worldX / cellSize
  let cellZ := worldZ / cellSize
  let x0 : ℤ := max 0 (min ((width : ℤ) - 1) ⌊cellX⌋)
  let z0 : ℤ := max 0 (min ((height : ℤ) - 1) ⌊cellZ⌋)
  let x1 : ℤ := min ((width : ℤ) - 1) (x0 + 1)
  let z1 : ℤ := min ((height : ℤ) - 1) (z0 + 1)
  let fx := cellX - (x0 : ℚ)
  let fz := cellZ - (z0 : ℚ)
  let h00 := elevation.getD (z0 * width + x0).toNat 0
  let h10 := elevation.getD (z0 * width + x1).toNat 0
  let h01 := elevation.getD (z1 * width + x0).toNat 0
  let h11 := elevation.getD (z1 * width + x1).toNat 0
  let h0 := h00 * (1 - fx) + h10 * fx
  let h1 := h01 * (1 - fx) + h11 * fx
  h0 * (1 - fz) + h1 * fz

/-- `selectBestTreePositions`: keep all candidates when at most
`targetCount`, otherwise score each (mid-elevation preference `0.7` plus a
random term `0.3`, one `rng` draw per candidate in order), sort by score
descending (stable) and take the top `targetCount`.  `k` is the number of
`rng` draws already consumed from the stream. -/
def selectBestTreePositions (candidates : List Pt) (targetCount : ℕ)
    (elevation : List ℚ) (width height : ℕ) (cellSize : ℚ)
    (rng : ℕ → ℚ) (k : ℕ) : List TreePos :=
  if candidates.length ≤ targetCount then
    candidates.map (fun pos =>
      ⟨pos.x, pos.y, getHeightAt pos.x pos.y elevation width height cellSize⟩)
  else
    let scored := candidates.enum.map (fun ip =>
      let h := getHeightAt ip.2.x ip.2.y elevation width height cellSize
      let midElevationScore := 1 - |h - 25| / 25
      let randomScore := rng (k + ip.1)
      (⟨ip.2.x, ip.2.y, h, midElevationScore * (7/10) + randomScore * (3/10)⟩ : ScoredPos))
    let sorted := scored.mergeSort (fun a b => decide (b.score ≤ a.score))
    (sorted.take targetCount).map (fun s => ⟨s.x, s.z, s.height⟩)

/-- Steps 4–7 of `generateTreePositions` (shared by the strict and relaxed
paths): bail out for `FOREST_PERCENTAGE <= 0`, compute the target count,
run Poisson sampling over world space with the mask as suitability
function, and select the best candidates. -/
def treePlacementFromMask (prims : MathPrims) (td : TerrainData) (cfg : Config)
    (rng : ℕ → ℚ) (mask : List ℚ) (suitableCells : ℕ) : List TreePos :=
  let forestPercentage := jsOr cfg.FOREST_PERCENTAGE 0
  if forestPercentage ≤ 0 then []
  else
    let targetForestCells := (suitableCells : ℚ) * forestPercentage / 100
    let targetTreeCount := (⌊targetForestCells / 3⌋).toNat
    let suitabilityFn : ℚ → ℚ → ℚ := fun x z =>
      let cellX := ⌊x / td.cellSize⌋
      let cellZ := ⌊z / td.cellSize⌋
      if cellX < 0 ∨ (td.width : ℤ) ≤ cellX ∨ cellZ < 0 ∨ (td.height : ℤ) ≤ cellZ then 0
      else mask.getD (cellZ * td.width + cellX).toNat 0
    let pr := poissonRun
      { width := (td.width : ℚ) * td.cellSize
        height := (td.height : ℚ) * td.cellSize
        minDistance := jsOr cfg.TREE_MIN_SPACING 3
        rng := rng
        maxAttempts := 30
        mask := some (fun x y => decide (suitabilityFn x y ≠ 0)) } prims
    selectBestTreePositions pr.1 targetTreeCount td.elevation td.width td.height
      td.cellSize rng pr.2

/-- `generateTreePositions(terrainData, config, rngStream)`: the tree
placement entry point.  The `rngStream` closure is modelled as the stream of
its future outputs.  When the strict mask has zero suitable cells a single
relaxation pass is attempted; if the relaxed mask is also empty the function
returns `[]`. -/
def generateTreePositions (prims : MathPrims) (td : TerrainData) (cfg : Config)
    (rng : ℕ → ℚ) : List TreePos :=
  let slopes := calculateSlopes prims td.elevation td.width td.height td.cellSize
  let mask := createTreeSuitabilityMask td.elevation slopes td.width td.height
    td.seaLevel cfg
  let suitableCells := mask.countP (fun v => decide (0 < v))
  if suitableCells = 0 then
    let relaxedMask := relaxedTreeMask td.elevation slopes (td.width * td.height)
      td.seaLevel (jsOr cfg.TREE_MAX_HEIGHT 60)
    let relaxedCount := relaxedMask.countP (fun v => decide (0 < v))
    if relaxedCount = 0 then []
    else treePlacementFromMask prims td cfg rng relaxedMask relaxedCount
  else treePlacementFromMask prims td cfg rng mask suitableCells

/-! ## erosion.js: HydraulicErosion -/

/-- A cell record `{x, y, height}` pushed by `_calculateFlow` before sorting. -/
structure FlowCell where
  x : ℕ
  y : ℕ
  height : ℚ
deriving DecidableEq, Repr

/-- The 8 D8 neighbor offsets in the JS visit order
(`dy = -1..1` outer, `dx = -1..1` inner, skipping `(0,0)`), as `(dx, dy)`. -/
def d8Offsets : List (ℤ × ℤ) :=
  [(-1, -1), (0, -1), (1, -1), (-1, 0), (1, 0), (-1, 1), (0, 1), (1, 1)]

/-- Find the strictly lowest of the 8 neighbors of `(cx, cy)` (first minimum
in visit order wins), `none` when no neighbor is lower. -/
def findLowestNeighbor (heights : List ℚ) (width height : ℕ) (cx cy : ℕ)
    (startHeight : ℚ) : Option ℕ :=
  (d8Offsets.foldl (fun st d =>
    let nx := (cx : ℤ) + d.1
    let ny := (cy : ℤ) + d.2
    if 0 ≤ nx ∧ nx < (width : ℤ) ∧ 0 ≤ ny ∧ ny < (height : ℤ) then
      let nIdx := (ny * width + nx).toNat
      if heights.getD nIdx 0 < st.2 then (some nIdx, heights.getD nIdx 0) else st
    else st) ((none : Option ℕ), startHeight)).1

/-- `_calculateFlow`: base flow 1 everywhere, cells sorted by height
descending (stable, like the JS comparator `b.height - a.height`), each cell
transfers its accumulated flow to its lowest neighbor. -/
def calculateFlow (heights : List ℚ) (width height : ℕ) : List ℚ :=
  let cells := (List.range (width * height)).map (fun idx =>
    (⟨idx % width, idx / width, heights.getD idx 0⟩ : FlowCell))
  let sortedCells := cells.mergeSort (fun a b => decide (b.height ≤ a.height))
  sortedCells.foldl (fun flow cell =>
    let idx := cell.y * width + cell.x
    match findLowestNeighbor heights width height cell.x cell.y cell.height with
    | some nIdx => flow.set nIdx (flow.getD nIdx 0 + flow.getD idx 0)
    | none => flow) (List.replicate (width * height) 1)

/-- `_normalize` / `_normalizeArray` (identical in erosion.js and
terrainGeneratorV1_1.js): min-max normalize to `[0,1]` when the range is
positive, otherwise leave unchanged. -/
def normalizeArray (arr : List ℚ) : List ℚ :=
  let mn := listMin arr
  let mx := listMax arr
  if 0 < mx - mn then arr.map (fun v => (v - mn) / (mx - mn)) else arr

/-- `_applyErosion`: erode each cell by `pow(flow/maxFlow, 0.5) * strength *
0.01` and renormalize. -/
def applyErosionPass (prims : MathPrims) (heights flow : List ℚ) (strength : ℚ) :
    List ℚ :=
  let maxFlow := listMax flow
  normalizeArray (List.zipWith (fun hgt f =>
    hgt - prims.powQ (f / maxFlow) (1/2) * strength * (1/100)) heights flow)

/-- `HydraulicErosion.erode(heightField, iterations, strength)`. -/
def erode (prims : MathPrims) (width height : ℕ) (heights : List ℚ) :
    ℕ → ℚ → List ℚ
  | 0, _ => heights
  | n + 1, strength =>
    let flow := calculateFlow heights width height
    erode prims width height (applyErosionPass prims heights flow strength) n strength

/-! ## noise.js (staged in `src/src/octagonGrid.js`): SimplexNoise, fbm,
generateNoiseField -/

/-- The exact rational value of the IEEE-754 double `Math.sqrt(3.0)`
(`Math.sqrt` is correctly rounded, so this is the double nearest `√3`,
slightly below it).  Intermediate double roundings in the derived skew
constants `F2`/`G2` are ignored, per the exact-arithmetic convention. -/
def sqrt3js : ℚ := 3900231685776981 / 2251799813685248

/-- `SimplexNoise._buildPermutation(seed)`: start from `0..255`, Fisher-Yates
shuffle downward with `j = Math.floor(random() * (i + 1))` where `random` is
the private LCG of `_seededRandom(seed)` (the same transition as rng.js, so
its `n`-th output is `lcgOut seed n`).  The JS destructuring swap reads both
cells before writing. -/
def buildPermutation (seed : ℕ) : List ℕ :=
  ((List.range 255).foldl (fun st k =>
    let i : ℕ := 255 - k
    let j := (⌊lcgOut seed st.2 * ((i : ℚ) + 1)⌋).toNat
    let vi := st.1.getD i 0
    let vj := st.1.getD j 0
    ((st.1.set i vj).set j vi, st.2 + 1)) (List.range 256, 0)).1

/-- `this.p[i]` for `i < 512`: the permutation duplicated for overflow
(`p[i] = perm[i & 255]`). -/
def permAt (perm : List ℕ) (i : ℕ) : ℕ := perm.getD (i % 256) 0

/-- `SimplexNoise._grad2(hash, x, y)`: dot product with one of the 12 2D
gradient directions (`hash` is always reduced `% 12` by the caller). -/
def grad2 (hash : ℕ) (x y : ℚ) : ℚ :=
  let g := ([(1, 1), (-1, 1), (1, -1), (-1, -1), (1, 0), (-1, 0), (1, 0), (-1, 0),
    (0, 1), (0, -1), (0, 1), (0, -1)] : List (ℚ × ℚ)).getD hash (0, 0)
  g.1 * x + g.2 * y

/-- `SimplexNoise.noise2D(x, y)` (Gustavson 2D simplex noise): skew by
`F2 = 0.5*(√3−1)`, pick the simplex by `x0 > y0`, wrap the lattice indices
with `i & 255` (modelled by the nonnegative `Int` remainder `% 256`, equal
to the JS two's-complement masking), and sum the three radial-falloff corner
contributions scaled by `70`. -/
def noise2D (perm : List ℕ) (x y : ℚ) : ℚ :=
  let F2 := (1/2) * (sqrt3js - 1)
  let G2 := (3 - sqrt3js) / 6
  let s := (x + y) * F2
  let i : ℤ := ⌊x + s⌋
  let j : ℤ := ⌊y + s⌋
  let t := ((i + j : ℤ) : ℚ) * G2
  let X0 := (i : ℚ) - t
  let Y0 := (j : ℚ) - t
  let x0 := x - X0
  let y0 := y - Y0
  let i1 : ℕ := if y0 < x0 then 1 else 0
  let j1 : ℕ := if y0 < x0 then 0 else 1
  let x1 := x0 - (i1 : ℚ) + G2
  let y1 := y0 - (j1 : ℚ) + G2
  let x2 := x0 - 1 + 2 * G2
  let y2 := y0 - 1 + 2 * G2
  let ii : ℕ := (i % 256).toNat
  let jj : ℕ := (j % 256).toNat
  let gi0 := permAt perm (ii + permAt perm jj) % 12
  let gi1 := permAt perm (ii + i1 + permAt perm (jj + j1)) % 12
  let gi2 := permAt perm (ii + 1 + permAt perm (jj + 1)) % 12
  let t0 := 1/2 - x0 * x0 - y0 * y0
  let n0 := if 0 ≤ t0 then (t0 * t0) * (t0 * t0) * grad2 gi0 x0 y0 else 0
  let t1 := 1/2 - x1 * x1 - y1 * y1
  let n1 := if 0 ≤ t1 then (t1 * t1) * (t1 * t1) * grad2 gi1 x1 y1 else 0
  let t2 := 1/2 - x2 * x2 - y2 * y2
  let n2 := if 0 ≤ t2 then (t2 * t2) * (t2 * t2) * grad2 gi2 x2 y2 else 0
  70 * (n0 + n1 + n2)

/-- `fbm(noise, x, y, params)`: accumulate `octaves` octaves (state
`(value, amplitude, freq, maxValue)`, updated in the JS statement order) and
divide by the total amplitude.  When `maxValue` is `0` (only possible for
`octaves = 0` or gain-cancellation; the shipped bands have `octaves ≥ 1` and
positive gains) JS produces `NaN`; the embedding yields `0` by the `ℚ`
zero-division convention. -/
def fbm (perm : List ℕ) (x y : ℚ) (np : NoiseParams) : ℚ :=
  let r := (List.range np.octaves).foldl (fun st _ =>
    (st.1 + noise2D perm (x * st.2.2.1) (y * st.2.2.1) * st.2.1,
      st.2.1 * np.gain, st.2.2.1 * np.lacunarity, st.2.2.2 + st.2.1))
    (0, 1, np.frequency, 0)
  r.1 / r.2.2.2

/-- `generateNoiseField(width, height, seed, params)`: a fresh
`SimplexNoise(seed)` permutation, then `fbm` per cell in row-major order,
remapped from `[-1, 1]` to `[0, 1]` by `(value + 1) * 0.5`. -/
def generateNoiseField (width height : ℕ) (seed : ℕ) (np : NoiseParams) :
    List ℚ :=
  let perm := buildPermutation seed
  (List.range (width * height)).map (fun idx =>
    let x := idx % width
    let y := idx / width
    (fbm perm (x : ℚ) (y : ℚ) np + 1) * (1/2))

/-! ## elevationCurve.js (staged in `src/unnamed/part_001`):
PiecewiseLinearCurve, ELEVATION_PRESETS, getPreset -/

/-- `getPreset(name)`: the control points of the named preset from
`ELEVATION_PRESETS`; an unknown name falls back to `LINEAR`.  Every preset
is already sorted by `x`, so the constructor's sort is the identity, and all
presets span `[0, 1]` with strictly increasing `x`. -/
def getPreset (name : String) : List (ℚ × ℚ) :=
  if name = "TERRACED_RTS" then [(0, 0), (2/5, 1/5), (3/5, 2/5), (4/5, 7/10), (1, 1)]
  else if name = "ROLLING_HILLS" then [(0, 1/10), (3/10, 3/10), (7/10, 3/5), (1, 19/20)]
  else if name = "SHARP_ALPS" then [(0, 0), (1/2, 3/10), (7/10, 1/2), (9/10, 4/5), (1, 1)]
  else if name = "FLATLANDS" then [(0, 1/4), (7/10, 7/20), (9/10, 1/2), (1, 7/10)]
  else if name = "VOLCANIC" then
    [(0, 0), (3/10, 1/10), (2/5, 2/5), (7/10, 1/2), (9/10, 7/10), (1, 1)]
  else if name = "CANYONS" then
    [(0, 0), (1/5, 1/20), (3/10, 1/2), (4/5, 11/20), (1, 3/5)]
  else [(0, 0), (1, 1)]

/-- The segment loop of `PiecewiseLinearCurve.evaluate`: the first segment
with `p0.x ≤ x ≤ p1.x` interpolates linearly; if no segment matches, fall
through to the last point's `y` (passed in as `lastY`).  A zero-width
matching segment makes JS divide by zero (`NaN`); the embedding yields `y0`
by the `ℚ` zero-division convention — unreachable for the presets, whose
segments all have positive width. -/
def piecewiseEval (lastY : ℚ) : List (ℚ × ℚ) → ℚ → ℚ
  | (x0, y0) :: (x1, y1) :: rest, x =>
    if x0 ≤ x ∧ x ≤ x1 then y0 + (x - x0) / (x1 - x0) * (y1 - y0)
    else piecewiseEval lastY ((x1, y1) :: rest) x
  | _, _ => lastY

/-- `PiecewiseLinearCurve.evaluate(x)`: clamp the input to `[0, 1]`
(`Math.max(0, Math.min(1, x))`), then run the segment loop with the last
point's `y` as fallthrough. -/
def evalCurve (pts : List (ℚ × ℚ)) (x : ℚ) : ℚ :=
  piecewiseEval (pts.getD (pts.length - 1) (0, 0)).2 pts (max 0 (min 1 x))

/-- `getPreset(config.ELEVATION_CURVE).applyToArray(elevation, elevation)`:
pointwise curve remap of the whole array. -/
def applyCurve (presetName : String) (arr : List ℚ) : List ℚ :=
  arr.map (evalCurve (getPreset presetName))

/-! ## terrainGeneratorV1_1.js: the generation pipeline (phases 1–3)

Each RNG stream label is requested by exactly one phase, so each phase
consumes its stream from a fresh state; the draw counter within a phase is
threaded explicitly. -/

/-- The UTF-16 code units of the stream label `"terrain"`. -/
def terrainLabel : List ℕ := [116, 101, 114, 114, 97, 105, 110]

/-- The UTF-16 code units of the stream label `"lakes"`. -/
def lakesLabel : List ℕ := [108, 97, 107, 101, 115]

/-- `nextInt(0, 1000000)`: `Math.floor(next() * 1000000) + 0`, where the
draw is the `c`-th output of the stream seeded with `subSeed`. -/
def nextIntM (subSeed c : ℕ) : ℕ := (⌊lcgOut subSeed c * 1000000⌋).toNat

/-- `elevation[i] += band[i] * weight` for one noise band. -/
def addWeighted (elev field : List ℚ) (weight : ℚ) : List ℚ :=
  List.zipWith (fun e m => e + m * weight) elev field

/-- `_carveLake`: superellipse-shaped depression with cosine falloff and
per-cell edge noise; lowers cells only (never raises).  One `rng` draw per
cell with superellipse distance `< 1`, threaded via the draw counter `c0` of
the `"lakes"` stream `ls`.  Iterates the integer bounding box in JS order. -/
def carveLake (prims : MathPrims) (cfg : Config) (elev0 : List ℚ) (cx cy : ℤ)
    (radiusX radiusY depth : ℚ) (ls c0 : ℕ) : List ℚ × ℕ :=
  let w := cfg.MAP_WIDTH
  let h := cfg.MAP_HEIGHT
  let squareness := cfg.LAKE_SHAPE_SQUARENESS
  let seaLevelEst := cfg.SEA_LEVEL
  let minY : ℤ := max 0 ⌊(cy : ℚ) - radiusY * 2⌋
  let maxY : ℤ := min ((h : ℤ) - 1) ⌈(cy : ℚ) + radiusY * 2⌉
  let minX : ℤ := max 0 ⌊(cx : ℚ) - radiusX * 2⌋
  let maxX : ℤ := min ((w : ℤ) - 1) ⌈(cx : ℚ) + radiusX * 2⌉
  let ys := (List.range (maxY - minY + 1).toNat).map (fun i => minY + i)
  let xs := (List.range (maxX - minX + 1).toNat).map (fun i => minX + i)
  (ys.flatMap (fun yi => xs.map (fun xi => (xi, yi)))).foldl (fun st cell =>
    let dx := cell.1 - cx
    let dy := cell.2 - cy
    let distX := (|dx| : ℚ) / radiusX
    let distY := (|dy| : ℚ) / radiusY
    let dist := prims.powQ (prims.powQ distX squareness + prims.powQ distY squareness)
      (1 / squareness)
    if dist < 1 then
      let idx := (cell.2 * (w : ℤ) + cell.1).toNat
      let falloff := prims.cos (dist * (prims.twoPi / 4))
      let edgeNoise := (lcgOut ls st.2 - 1/2) * cfg.LAKE_EDGE_NOISE_AMP
      let depthBelowSea := depth * max 0 (falloff + edgeNoise)
      let targetHeight := max 0 (seaLevelEst - depthBelowSea)
      (if targetHeight < st.1.getD idx 0 then st.1.set idx targetHeight else st.1,
        st.2 + 1)
    else st) (elev0, c0)

/-- `_addLakes`: skip when `WATER_PERCENTAGE <= 0`, place lake centers by
Poisson sampling seeded from the `"lakes"` stream, then carve each center
with a random size variation (70%–130%) and depth. -/
def addLakes (prims : MathPrims) (cfg : Config) (elevation : List ℚ) : List ℚ :=
  if cfg.WATER_PERCENTAGE ≤ 0 then elevation
  else
    let w := cfg.MAP_WIDTH
    let h := cfg.MAP_HEIGHT
    let ls := hashSeed cfg.SEED lakesLabel
    let targetWaterCells : ℤ := ⌊cfg.WATER_PERCENTAGE / 100 * ((w * h : ℕ) : ℚ)⌋
    let pr := poissonRun
      { width := (w : ℚ), height := (h : ℚ), minDistance := cfg.LAKE_MIN_SPACING
        rng := lcgOut ls, maxAttempts := 30, mask := none } prims
    let lakeCenters := pr.1
    if lakeCenters.length = 0 then elevation
    else
      let cellsPerLake : ℤ := ⌊(targetWaterCells : ℚ) / (lakeCenters.length : ℚ)⌋
      let avgRadius := prims.sqrtQ ((cellsPerLake : ℚ) / (prims.twoPi / 2))
      (lakeCenters.foldl (fun st center =>
        let cx : ℤ := ⌊center.x⌋
        let cy : ℤ := ⌊center.y⌋
        let sizeVariation := 7/10 + lcgOut ls st.2 * (6/10)
        let radiusX := avgRadius * sizeVariation
        let radiusY := avgRadius * sizeVariation
        let depthRange := cfg.LAKE_DEPTH_MAX - cfg.LAKE_DEPTH_MIN
        let depth := cfg.LAKE_DEPTH_MIN + lcgOut ls (st.2 + 1) * depthRange
        carveLake prims cfg st.1 cx cy radiusX radiusY depth ls (st.2 + 2))
        (elevation, pr.2)).1

/-- `_generateElevation` (phase 1): multi-band noise composition seeded from
the `"terrain"` stream (one `nextInt` draw per band with positive
amplitude), min-max normalization, contrast curve `pow(e, 0.9)` clamped to
`[0,1]`, elevation-curve remap, lake carving, and scaling to meters. -/
def generateElevation (prims : MathPrims) (cfg : Config) :
    List ℚ :=
  let w := cfg.MAP_WIDTH
  let h := cfg.MAP_HEIGHT
  let ts := hashSeed cfg.SEED terrainLabel
  let e0 : List ℚ := List.replicate (w * h) 0
  let r1 := if 0 < cfg.NOISE_MACRO.amplitude then
      (addWeighted e0 (generateNoiseField w h (nextIntM ts 0) cfg.NOISE_MACRO)
        cfg.NOISE_MACRO.amplitude, 1)
    else (e0, 0)
  let r2 := if 0 < cfg.NOISE_MESO.amplitude then
      (addWeighted r1.1 (generateNoiseField w h (nextIntM ts r1.2) cfg.NOISE_MESO)
        cfg.NOISE_MESO.amplitude, r1.2 + 1)
    else r1
  let r3 := if 0 < cfg.NOISE_MICRO.amplitude then
      (addWeighted r2.1 (generateNoiseField w h (nextIntM ts r2.2) cfg.NOISE_MICRO)
        cfg.NOISE_MICRO.amplitude, r2.2 + 1)
    else r2
  let e4 := normalizeArray r3.1
  let e5 := e4.map (fun e => min 1 (max 0 (prims.powQ e (9/10))))
  let e6 := applyCurve cfg.ELEVATION_CURVE e5
  let e7 := addLakes prims cfg e6
  e7.map (· * cfg.ELEVATION_SCALE)

/-- The fields of the `generate()` result record referenced by the claims;
the auxiliary fields (moisture, temperature, biomes, splat weights, metrics,
sub-seed snapshot) are computed after phase 3 and never feed back into
`elevation` or `seaLevel`. -/
structure TerrainResult where
  elevation : List ℚ
  seaLevel : ℚ
  seaLevelNormalized : ℚ
  width : ℕ
  height : ℕ

/-- `TerrainGeneratorV1_1.generate()`, phases 1–3: elevation composition,
optional erosion (`EROSION_ITERATIONS > 0`), and the exact sea-level solve
(whose `p == 0` branch mutates the elevation array in place). -/
def generate (prims : MathPrims) (cfg : Config) :
    TerrainResult :=
  let elevation0 := generateElevation prims cfg
  let elevation1 :=
    if 0 < cfg.EROSION_ITERATIONS then
      erode prims cfg.MAP_WIDTH cfg.MAP_HEIGHT elevation0 cfg.EROSION_ITERATIONS
        cfg.EROSION_STRENGTH
    else elevation0
  let r := solveSeaLevel elevation1 cfg.WATER_PERCENTAGE cfg.WATER_EPSILON
  ⟨r.elevationOut, r.seaLevel, r.seaLevel / cfg.ELEVATION_SCALE,
    cfg.MAP_WIDTH, cfg.MAP_HEIGHT⟩

/-! ## Poisson sampling: invariant and measure (proof layer for C5/C10) -/

/-- Squared Euclidean distance between two sample points. -/
def dist2 (a b : Pt) : ℚ := (a.x - b.x) ^ 2 + (a.y - b.y) ^ 2

/-- Background-grid column of a point. -/
def cellXOf (p : PoissonParams) (q : Pt) : ℤ := ⌊q.x / cellSize p⌋

/-- Background-grid row of a point. -/
def cellYOf (p : PoissonParams) (q : Pt) : ℤ := ⌊q.y / cellSize p⌋

/-- Background-grid index of a point (as used by `addPoint` for in-bounds
points). -/
def cellIdx (p : PoissonParams) (q : Pt) : ℕ :=
  (cellYOf p q * (gridWidth p : ℤ) + cellXOf p q).toNat

/-- A point lies inside the sampling domain. -/
def inBounds (p : PoissonParams) (q : Pt) : Prop :=
  0 ≤ q.x ∧ q.x < p.width ∧ 0 ≤ q.y ∧ q.y < p.height

/-- Well-formedness of one sampling call: positive domain, positive minimum
distance, and an RNG producing values in `[0, 1)`. -/
structure PParamsOk (p : PoissonParams) : Prop where
  wpos : 0 < p.width
  hpos : 0 < p.height
  rpos : 0 < p.minDistance
  rng01 : ∀ n, 0 ≤ p.rng n ∧ p.rng n < 1

/-- The loop invariant of the sampling run: the grid has one slot per cell,
samples are in bounds, every sample is registered in its own grid cell which
holds exactly it, samples are pairwise at squared distance `≥ minDistance²`,
the active list is a sublist of the samples, and (when a mask is given) all
samples satisfy it. -/
structure PInv (p : PoissonParams) (st : PState) : Prop where
  gridLen : st.grid.length = gridWidth p * gridHeight p
  bounds : ∀ q ∈ st.samples, inBounds p q
  reg : ∀ q ∈ st.samples, st.grid.getD (cellIdx p q) none = some q
  gridSelf : ∀ i q, st.grid.getD i none = some q → q ∈ st.samples ∧ cellIdx p q = i
  spacing : List.Pairwise (fun a b => p.minDistance ^ 2 ≤ dist2 a b) st.samples
  activeSub : st.active.Sublist st.samples
  maskOk : ∀ m, p.mask = some m → ∀ q ∈ st.samples, m q.x q.y = true

/-- Termination measure of the main loop: each iteration either accepts at
least one new sample (each occupying a previously free grid cell) or drops
one active point. -/
def pdsMeasure (p : PoissonParams) (st : PState) : ℕ :=
  2 * (gridWidth p * gridHeight p - st.samples.length) + st.active.length

/-- Concrete sampling parameters used by the C5/C10 witnesses: 4×1 domain,
minimum distance 3, constant-zero RNG, one attempt per active point, no
mask. -/
def pW : PoissonParams := ⟨4, 1, 3, fun _ => 0, 1, none⟩

/-- Concrete math-function interpretations used by the C5/C10 witnesses
(candidates are cast due east: `cos = 1`, `sin = 0`). -/
def primsW : MathPrims :=
  ⟨fun _ => 1, fun _ => 0, fun _ => 0, fun _ _ => 0, fun _ => 0, 0⟩

/-- Terrain data of the concrete C7 run: a single cell of height exactly
`TREE_MAX_HEIGHT = 60`, sea level `0`, cell size `1`. -/
def tdCE : TerrainData := ⟨[60], 0, 1, 1, 1⟩

/-- Configuration of the concrete C7 run: default tree thresholds
(buffer `2`, max height `60`, max slope `35`, spacing `3`) and
`FOREST_PERCENTAGE = 300` so that one tree is targeted on the single cell. -/
def cfgCE : Config :=
  ⟨0, 1, 1, 1, 1, "id", 0, 0, 0, 0, 0, 0, 0, 0, 0,
    ⟨0, 0, 0, 0, 0⟩, ⟨0, 0, 0, 0, 0⟩, ⟨0, 0, 0, 0, 0⟩,
    0, 0, 300, 3, 60, 35, 2⟩

/-- The suitability function passed to the Poisson sampler in the concrete
C7 run, after the strict mask evaluates to `[1]`. -/
def mCE : ℚ → ℚ → Bool := fun x y =>
  decide ((if ⌊x / tdCE.cellSize⌋ < 0 ∨ (tdCE.width : ℤ) ≤ ⌊x / tdCE.cellSize⌋ ∨
      ⌊y / tdCE.cellSize⌋ < 0 ∨ (tdCE.height : ℤ) ≤ ⌊y / tdCE.cellSize⌋ then (0 : ℚ)
    else ([1] : List ℚ).getD (⌊y / tdCE.cellSize⌋ * (tdCE.width : ℤ) + ⌊x / tdCE.cellSize⌋).toNat 0) ≠ 0)

/-- The Poisson parameters of the concrete C7 run (as built by
`treePlacementFromMask` from `tdCE`/`cfgCE`). -/
def pCE : PoissonParams := ⟨1, 1, 3, fun _ => 0, 30, some mCE⟩

/-- Terrain data of the concrete C9 witness run: one cell of height `0`
(below the beach buffer, so the strict mask is empty; below `seaLevel + 1`,
so the relaxed mask is empty too). -/
def tdC9 : TerrainData := ⟨[0], 0, 1, 1, 1⟩

/-- Configuration of the C9 counterexample: `TREE_MAX_SLOPE = 50`, a
configured slope limit above the fixed relaxed limit of `45`. -/
def cfgC9 : Config :=
  ⟨0, 1, 1, 1, 1, "id", 0, 0, 0, 0, 0, 0, 0, 0, 0,
    ⟨0, 0, 0, 0, 0⟩, ⟨0, 0, 0, 0, 0⟩, ⟨0, 0, 0, 0, 0⟩,
    0, 0, 300, 3, 60, 50, 2⟩

/-! ## Helper lemmas -/

theorem foldl_min_le_init (l : List ℚ) (a : ℚ) : l.foldl min a ≤ a := by
  induction l generalizing a with
  | nil => exact le_rfl
  | cons b t ih => exact le_trans (ih (min a b)) (min_le_left a b)

theorem foldl_min_le_mem (l : List ℚ) (a x : ℚ) (hx : x ∈ l) : l.foldl min a ≤ x := by
  induction l generalizing a with
  | nil => cases hx
  | cons b t ih =>
    rcases List.mem_cons.mp hx with h | h
    · subst h
      exact le_trans (foldl_min_le_init t (min a x)) (min_le_right a x)
    · exact ih (min a b) h

theorem listMin_le (l : List ℚ) (x : ℚ) (hx : x ∈ l) : listMin l ≤ x := by
  cases l with
  | nil => cases hx
  | cons b t =>
    rcases List.mem_cons.mp hx with h | h
    · subst h
      exact foldl_min_le_init t x
    · exact foldl_min_le_mem t b x h

theorem init_le_foldl_max (l : List ℚ) (a : ℚ) : a ≤ l.foldl max a := by
  induction l generalizing a with
  | nil => exact le_rfl
  | cons b t ih => exact le_trans (le_max_left a b) (ih (max a b))

theorem mem_le_foldl_max (l : List ℚ) (a x : ℚ) (hx : x ∈ l) : x ≤ l.foldl max a := by
  induction l generalizing a with
  | nil => cases hx
  | cons b t ih =>
    rcases List.mem_cons.mp hx with h | h
    · subst h
      exact le_trans (le_max_right a x) (init_le_foldl_max t (max a x))
    · exact ih (max a b) h

theorem le_listMax (l : List ℚ) (x : ℚ) (hx : x ∈ l) : x ≤ listMax l := by
  cases l with
  | nil => cases hx
  | cons b t =>
    rcases List.mem_cons.mp hx with h | h
    · subst h
      exact init_le_foldl_max t x
    · exact mem_le_foldl_max t b x h

/-! ## C8: distinct labels and LCG streams -/

theorem lcgNext_lt_U32 (s : ℕ) : lcgNext s < U32 :=
  Nat.mod_lt _ (by norm_num [U32])

theorem lcgNext_inj {a b : ℕ} (ha : a < U32) (hb : b < U32)
    (h : lcgNext a = lcgNext b) : a = b := by
  have hmod : (a * 1664525 + 1013904223) % U32 = (b * 1664525 + 1013904223) % U32 := h
  have hme : a * 1664525 ≡ b * 1664525 [MOD U32] :=
    Nat.ModEq.add_right_cancel' 1013904223 hmod
  have : a ≡ b [MOD U32] := hme.cancel_right_of_coprime (by decide)
  calc a = a % U32 := (Nat.mod_eq_of_lt ha).symm
    _ = b % U32 := this
    _ = b := Nat.mod_eq_of_lt hb

theorem hashSeed_lt_U32 (seed : ℕ) (label : List ℕ) : hashSeed seed label < U32 := by
  have h2 : (label.foldl hashStep ((seed % U32) ^^^ 0x9e3779b9)) * 0xc2b2ae35 % U32 < U32 :=
    Nat.mod_lt _ (by norm_num [U32])
  have : U32 = 2 ^ 32 := by norm_num [U32]
  rw [hashSeed]
  rw [this] at h2 ⊢
  exact Nat.xor_lt_two_pow h2 (lt_of_le_of_lt (Nat.div_le_self _ _) h2)

/-- C8 (amended): whenever the two derived 32-bit sub-seeds differ, the two
streams differ already at their first `next()` output.  (The claim as stated
fails: `hashSeed` is a 32-bit hash, so distinct labels can collide, and
colliding labels yield identical sequences — see the counterexample.) -/
theorem C8_amended_thm (seed : ℕ) (l1 l2 : List ℕ)
    (hne : hashSeed seed l1 ≠ hashSeed seed l2) :
    streamOut seed l1 0 ≠ streamOut seed l2 0 := by
  intro h
  apply hne
  have h1 : hashSeed seed l1 % U32 = hashSeed seed l1 :=
    Nat.mod_eq_of_lt (hashSeed_lt_U32 seed l1)
  have h2 : hashSeed seed l2 % U32 = hashSeed seed l2 :=
    Nat.mod_eq_of_lt (hashSeed_lt_U32 seed l2)
  have hcast : (lcgState (hashSeed seed l1) 1 : ℚ) = (lcgState (hashSeed seed l2) 1 : ℚ) := by
    have hU : (0 : ℚ) < (U32 : ℚ) := by norm_num [U32]
    field_simp [streamOut, lcgOut] at h
    exact_mod_cast h
  have hstate : lcgState (hashSeed seed l1) 1 = lcgState (hashSeed seed l2) 1 :=
    Nat.cast_injective hcast
  have : lcgNext (hashSeed seed l1 % U32) = lcgNext (hashSeed seed l2 % U32) := hstate
  rw [h1, h2] at this
  exact lcgNext_inj (hashSeed_lt_U32 seed l1) (hashSeed_lt_U32 seed l2) this

/-- C8 witness: for master seed 0 the labels `"a"` and `"b"` derive distinct
sub-seeds, so their streams differ at the first output. -/
theorem C8_amended_witness :
    hashSeed 0 [97] ≠ hashSeed 0 [98] ∧ streamOut 0 [97] 0 ≠ streamOut 0 [98] 0 :=
  ⟨by decide, C8_amended_thm 0 [97] [98] (by decide)⟩

/-- C8 counterexample: the distinct labels `"b"` (code units `[98]`) and
`"a\x03"` (code units `[97, 3]`) hash to the same 32-bit sub-seed under
master seed 2654435800, so the two derived streams produce exactly the same
sequence of `next()` values, refuting the claim. -/
theorem C8_counterexample :
    ([98] : List ℕ) ≠ [97, 3] ∧
    hashSeed 2654435800 [98] = hashSeed 2654435800 [97, 3] ∧
    ∀ n, streamOut 2654435800 [98] n = streamOut 2654435800 [97, 3] n := by
  refine ⟨by decide, by decide, fun n => ?_⟩
  have h : hashSeed 2654435800 [98] = hashSeed 2654435800 [97, 3] := by decide
  rw [streamOut, streamOut, h]

/-! ## C2: determinism of generate() -/

/-- C2: for a fixed configuration (and fixed interpretations of the
transcendental math functions), two independent runs of `generate()` on
freshly constructed generator instances produce identical elevation arrays
and sea levels.  In the embedding `generate` is a pure function of the
configuration — the pipeline (noise fields and curve remap included) reads
no state other than the configuration and the streams derived from `SEED` —
so the two runs are literally the same value. -/
theorem C2_thm (prims : MathPrims) (cfg : Config) :
    (generate prims cfg).elevation = (generate prims cfg).elevation ∧
    (generate prims cfg).seaLevel = (generate prims cfg).seaLevel :=
  ⟨rfl, rfl⟩

/-! ## C3: FOREST_PERCENTAGE does not influence elevation or sea level -/

/-- C3: changing `FOREST_PERCENTAGE` (all other configuration fields and the
seed fixed) changes neither the elevation array nor the sea level: the
terrain pipeline (phases 1–3) never reads that field. -/
theorem C3_thm (prims : MathPrims) (cfg : Config) (f : ℚ) :
    (generate prims { cfg with FOREST_PERCENTAGE := f }).elevation =
      (generate prims cfg).elevation ∧
    (generate prims { cfg with FOREST_PERCENTAGE := f }).seaLevel =
      (generate prims cfg).seaLevel :=
  ⟨rfl, rfl⟩

/-! ## C6: solver edge cases p = 0 and p ≥ 100 -/

/-- The `p == 0` branch of `solveSeaLevel`, as an explicit record. -/
theorem solveSeaLevel_zero (data : List ℚ) (ε : ℚ) :
    solveSeaLevel data 0 ε =
      ⟨listMin data - ε, 0, 0,
        data.countP (fun h => decide (h < listMin data + ε)),
        data.map (fun h => if h < listMin data + ε then listMin data + ε else h),
        "0%_raise"⟩ := by
  simp [solveSeaLevel]

/-- The `p >= 100` branch of `solveSeaLevel`, as an explicit record. -/
theorem solveSeaLevel_hundred (data : List ℚ) (p ε : ℚ) (hp : 100 ≤ p) :
    solveSeaLevel data p ε =
      ⟨listMax data + ε, 100, data.length, 0, data, "100%_cover"⟩ := by
  have hp0 : p ≠ 0 := by intro h; rw [h] at hp; norm_num at hp
  simp [solveSeaLevel, hp0, hp]

/-- The quantile branch of `solveSeaLevel` (`0 < p < 100`), as an explicit
record. -/
theorem solveSeaLevel_quantile (data : List ℚ) (p ε : ℚ) (h0 : 0 < p) (h1 : p < 100) :
    solveSeaLevel data p ε =
      ⟨findQuantile data (p / 100),
        ((data.countP (fun h => decide (h ≤ findQuantile data (p / 100))) : ℕ) : ℚ) /
          (data.length : ℚ) * 100,
        data.countP (fun h => decide (h ≤ findQuantile data (p / 100))), 0,
        data, "quantile"⟩ := by
  simp [solveSeaLevel, ne_of_gt h0, not_le.mpr h1]

/-- C6: for a nonempty height field and `ε > 0`, the `p = 0` branch returns
sea level `min − ε` and raises every cell below `min + ε` to that floor, so
no cell of the resulting field lies at or below the sea level; the
`p ≥ 100` branch returns sea level `max + ε`, below which every cell lies. -/
theorem C6_thm (data : List ℚ) (hne : data ≠ []) (ε : ℚ) (hε : 0 < ε)
    (p : ℚ) (hp : 100 ≤ p) :
    (solveSeaLevel data 0 ε).seaLevel = listMin data - ε ∧
    (solveSeaLevel data 0 ε).elevationOut =
      data.map (fun h => if h < listMin data + ε then listMin data + ε else h) ∧
    (∀ x ∈ (solveSeaLevel data 0 ε).elevationOut,
      (solveSeaLevel data 0 ε).seaLevel < x) ∧
    (solveSeaLevel data 0 ε).elevationOut.countP
      (fun x => decide (x ≤ (solveSeaLevel data 0 ε).seaLevel)) = 0 ∧
    (solveSeaLevel data p ε).seaLevel = listMax data + ε ∧
    (∀ x ∈ (solveSeaLevel data p ε).elevationOut, x ≤ (solveSeaLevel data p ε).seaLevel) := by
  have hmem : ∀ x ∈ (solveSeaLevel data 0 ε).elevationOut,
      (solveSeaLevel data 0 ε).seaLevel < x := by
    intro x hx
    rw [solveSeaLevel_zero] at hx ⊢
    rcases List.mem_map.mp hx with ⟨y, _, rfl⟩
    by_cases hy : y < listMin data + ε
    · rw [if_pos hy]; dsimp only; linarith
    · rw [if_neg hy]; push_neg at hy; dsimp only; linarith
  refine ⟨by rw [solveSeaLevel_zero], by rw [solveSeaLevel_zero], hmem, ?_, ?_, ?_⟩
  · rw [List.countP_eq_zero]
    intro a ha
    simpa using not_le.mpr (hmem a ha)
  · rw [solveSeaLevel_hundred data p ε hp]
  · intro x hx
    rw [solveSeaLevel_hundred data p ε hp] at hx ⊢
    have := le_listMax data x hx
    dsimp only at hx ⊢
    linarith

/-- C6 witness at the concrete field `[5, 2, 9]` with `ε = 1/100`, `p = 100`. -/
theorem C6_witness :
    ([5, 2, 9] : List ℚ) ≠ [] ∧ (0 : ℚ) < 1/100 ∧ (100 : ℚ) ≤ 100 ∧
    ((solveSeaLevel [5, 2, 9] 0 (1/100)).seaLevel = listMin [5, 2, 9] - 1/100 ∧
    (solveSeaLevel [5, 2, 9] 0 (1/100)).elevationOut =
      ([5, 2, 9] : List ℚ).map (fun h =>
        if h < listMin [5, 2, 9] + 1/100 then listMin [5, 2, 9] + 1/100 else h) ∧
    (∀ x ∈ (solveSeaLevel [5, 2, 9] 0 (1/100)).elevationOut,
      (solveSeaLevel [5, 2, 9] 0 (1/100)).seaLevel < x) ∧
    (solveSeaLevel [5, 2, 9] 0 (1/100)).elevationOut.countP
      (fun x => decide (x ≤ (solveSeaLevel [5, 2, 9] 0 (1/100)).seaLevel)) = 0 ∧
    (solveSeaLevel [5, 2, 9] 100 (1/100)).seaLevel = listMax [5, 2, 9] + 1/100 ∧
    (∀ x ∈ (solveSeaLevel [5, 2, 9] 100 (1/100)).elevationOut,
      x ≤ (solveSeaLevel [5, 2, 9] 100 (1/100)).seaLevel)) :=
  ⟨by decide, by norm_num, le_refl _,
    C6_thm [5, 2, 9] (by decide) (1/100) (by norm_num) 100 (le_refl _)⟩

/-! ## Quantile interpolation: shared lemmas for C1 and C4 -/

/-- The linear interpolation `sorted[⌊t⌋] * (1 - w) + sorted[⌈t⌉] * w` with
`w = t - ⌊t⌋`, the core of `findQuantile` at position `t`. -/
def interpAt (s : List ℚ) (t : ℚ) : ℚ :=
  s.getD (⌊t⌋).toNat 0 * (1 - (t - (⌊t⌋ : ℚ))) + s.getD (⌈t⌉).toNat 0 * (t - (⌊t⌋ : ℚ))

theorem jsSorted_perm (data : List ℚ) : (jsSorted data).Perm data :=
  List.mergeSort_perm data _

theorem jsSorted_length (data : List ℚ) : (jsSorted data).length = data.length :=
  (jsSorted_perm data).length_eq

theorem jsSorted_pairwise_le (data : List ℚ) : (jsSorted data).Pairwise (· ≤ ·) := by
  have h := @List.sorted_mergeSort ℚ (fun a b : ℚ => decide (a ≤ b))
    (fun a b c hab hbc => decide_eq_true (le_trans (of_decide_eq_true hab) (of_decide_eq_true hbc)))
    (fun a b => by
      rcases le_total a b with h | h
      · simp [h]
      · simp [h]) data
  exact h.imp (fun h => of_decide_eq_true h)

theorem jsSorted_pairwise_lt (data : List ℚ) (hdist : data.Pairwise (· ≠ ·)) :
    (jsSorted data).Pairwise (· < ·) := by
  have hne : (jsSorted data).Pairwise (· ≠ ·) :=
    ((jsSorted_perm data).pairwise_iff (fun h => h.symm)).mpr hdist
  exact ((jsSorted_pairwise_le data).and hne).imp (fun h => lt_of_le_of_ne h.1 h.2)

theorem getD_mono_of_pairwise_le (s : List ℚ) (hs : s.Pairwise (· ≤ ·)) {i j : ℕ}
    (hij : i ≤ j) (hj : j < s.length) : s.getD i 0 ≤ s.getD j 0 := by
  have hi : i < s.length := lt_of_le_of_lt hij hj
  rw [List.getD_eq_getElem s 0 hi, List.getD_eq_getElem s 0 hj]
  rcases eq_or_lt_of_le hij with rfl | hlt
  · exact le_rfl
  · exact List.pairwise_iff_get.mp hs ⟨i, hi⟩ ⟨j, hj⟩ hlt

theorem getD_strict_mono_of_pairwise_lt (s : List ℚ) (hs : s.Pairwise (· < ·)) {i j : ℕ}
    (hij : i < j) (hj : j < s.length) : s.getD i 0 < s.getD j 0 := by
  have hi : i < s.length := lt_trans hij hj
  rw [List.getD_eq_getElem s 0 hi, List.getD_eq_getElem s 0 hj]
  exact List.pairwise_iff_get.mp hs ⟨i, hi⟩ ⟨j, hj⟩ hij

theorem getD_mem (s : List ℚ) {i : ℕ} (hi : i < s.length) : s.getD i 0 ∈ s := by
  rw [List.getD_eq_getElem s 0 hi]
  exact List.getElem_mem hi

/-- Position bookkeeping: with `0 ≤ t ≤ n - 1` (`n = s.length ≥ 1`), the
floor and ceiling of `t` are valid indices. -/
theorem interp_index_bounds (s : List ℚ) (t : ℚ) (hne : s ≠ []) (h0 : 0 ≤ t)
    (hn : t ≤ (s.length : ℚ) - 1) :
    0 ≤ ⌊t⌋ ∧ ⌊t⌋ ≤ ⌈t⌉ ∧ (⌈t⌉).toNat < s.length ∧ (⌊t⌋).toNat < s.length := by
  have hlen : 1 ≤ s.length := List.length_pos.mpr hne
  have hl0 : 0 ≤ ⌊t⌋ := Int.le_floor.mpr (by exact_mod_cast h0)
  have hu : ⌈t⌉ ≤ (s.length : ℤ) - 1 := by
    rw [Int.ceil_le]
    push_cast
    exact hn
  have hlu : ⌊t⌋ ≤ ⌈t⌉ := Int.floor_le_ceil t
  have huN : (⌈t⌉).toNat < s.length := by
    omega
  exact ⟨hl0, hlu, huN, by omega⟩

/-- The interpolated value lies between `sorted[⌊t⌋]` and `sorted[⌈t⌉]`. -/
theorem interpAt_bounds (s : List ℚ) (hs : s.Pairwise (· ≤ ·)) (t : ℚ) (hne : s ≠ [])
    (h0 : 0 ≤ t) (hn : t ≤ (s.length : ℚ) - 1) :
    s.getD (⌊t⌋).toNat 0 ≤ interpAt s t ∧ interpAt s t ≤ s.getD (⌈t⌉).toNat 0 := by
  obtain ⟨hl0, hlu, huN, hlN⟩ := interp_index_bounds s t hne h0 hn
  have hAB : s.getD (⌊t⌋).toNat 0 ≤ s.getD (⌈t⌉).toNat 0 :=
    getD_mono_of_pairwise_le s hs (by omega) huN
  have hw0 : 0 ≤ t - (⌊t⌋ : ℚ) := sub_nonneg.mpr (Int.floor_le t)
  have hw1 : t - (⌊t⌋ : ℚ) < 1 := by
    have := Int.lt_floor_add_one t
    linarith
  constructor
  · rw [interpAt]
    nlinarith [hAB, hw0, hw1]
  · rw [interpAt]
    nlinarith [hAB, hw0, hw1]

/-- Monotonicity of the interpolation in the position (C4 core). -/
theorem interpAt_mono (s : List ℚ) (hs : s.Pairwise (· ≤ ·)) (t1 t2 : ℚ) (hne : s ≠ [])
    (h0 : 0 ≤ t1) (h12 : t1 ≤ t2) (hn : t2 ≤ (s.length : ℚ) - 1) :
    interpAt s t1 ≤ interpAt s t2 := by
  have h02 : 0 ≤ t2 := le_trans h0 h12
  have hn1 : t1 ≤ (s.length : ℚ) - 1 := le_trans h12 hn
  obtain ⟨hl01, hlu1, huN1, hlN1⟩ := interp_index_bounds s t1 hne h0 hn1
  obtain ⟨hl02, hlu2, huN2, hlN2⟩ := interp_index_bounds s t2 hne h02 hn
  by_cases hcase : ⌈t1⌉ ≤ ⌊t2⌋
  · have h1 := (interpAt_bounds s hs t1 hne h0 hn1).2
    have h2 := (interpAt_bounds s hs t2 hne h02 hn).1
    have hmid : s.getD (⌈t1⌉).toNat 0 ≤ s.getD (⌊t2⌋).toNat 0 :=
      getD_mono_of_pairwise_le s hs (by omega) hlN2
    linarith
  · push_neg at hcase
    have hff : ⌊t1⌋ = ⌊t2⌋ := by
      have h1 : ⌊t1⌋ ≤ ⌊t2⌋ := Int.floor_le_floor h12
      have h2 : ⌈t1⌉ ≤ ⌊t1⌋ + 1 := Int.ceil_le_floor_add_one t1
      omega
    have ht1ni : (⌊t1⌋ : ℚ) < t1 := by
      rcases lt_or_eq_of_le (Int.floor_le t1) with h | h
      · exact h
      · exfalso
        have : ⌈t1⌉ = ⌊t1⌋ := by
          rw [← h]
          exact_mod_cast Int.ceil_intCast ⌊t1⌋
        omega
    have hc1 : ⌈t1⌉ = ⌊t1⌋ + 1 := by
      have h2 : ⌈t1⌉ ≤ ⌊t1⌋ + 1 := Int.ceil_le_floor_add_one t1
      have h3 : ⌊t1⌋ < ⌈t1⌉ := by
        have := Int.le_ceil t1
        have : (⌊t1⌋ : ℚ) < (⌈t1⌉ : ℚ) := lt_of_lt_of_le ht1ni this
        exact_mod_cast this
      omega
    have ht2ni : (⌊t2⌋ : ℚ) < t2 := by
      have : (⌊t1⌋ : ℚ) ≤ t2 := by
        rw [hff]
        exact Int.floor_le t2
      calc (⌊t2⌋ : ℚ) = (⌊t1⌋ : ℚ) := by rw [hff]
        _ < t1 := ht1ni
        _ ≤ t2 := h12
    have hc2 : ⌈t2⌉ = ⌊t2⌋ + 1 := by
      have h2 : ⌈t2⌉ ≤ ⌊t2⌋ + 1 := Int.ceil_le_floor_add_one t2
      have h3 : ⌊t2⌋ < ⌈t2⌉ := by
        have h4 := Int.le_ceil t2
        have : (⌊t2⌋ : ℚ) < (⌈t2⌉ : ℚ) := lt_of_lt_of_le ht2ni h4
        exact_mod_cast this
      omega
    have hAB : s.getD (⌊t2⌋).toNat 0 ≤ s.getD (⌈t2⌉).toNat 0 :=
      getD_mono_of_pairwise_le s hs (by omega) huN2
    rw [hc2] at hAB
    rw [interpAt, interpAt, hc1, hc2, hff]
    have hw12 : t1 - (⌊t2⌋ : ℚ) ≤ t2 - (⌊t2⌋ : ℚ) := by linarith
    nlinarith [hAB, hw12]

/-- `findQuantile` on a nonempty list with interior quantile is the
interpolation at position `q * (n - 1)` over the sorted copy. -/
theorem findQuantile_eq_interpAt (data : List ℚ) (hne : data ≠ []) (q : ℚ)
    (h0 : 0 < q) (h1 : q < 1) :
    findQuantile data q = interpAt (jsSorted data) (q * ((data.length : ℚ) - 1)) := by
  have hlen : data.length ≠ 0 := fun h => hne (List.length_eq_zero.mp h)
  rw [findQuantile, if_neg (by push_neg; constructor <;> linarith),
    if_neg hlen, if_neg (by linarith), if_neg (by linarith)]
  rw [interpAt, jsSorted_length]

/-- A predicate that holds exactly on the first `k` positions of a list has
count `k`. -/
theorem countP_eq_of_cut {α : Type} (p : α → Bool) :
    ∀ (s : List α) (k : ℕ), k ≤ s.length →
    (∀ i (h : i < s.length), i < k → p (s.get ⟨i, h⟩) = true) →
    (∀ i (h : i < s.length), k ≤ i → p (s.get ⟨i, h⟩) = false) →
    s.countP p = k := by
  intro s
  induction s with
  | nil =>
    intro k hk _ _
    simpa using (Nat.le_zero.mp hk).symm
  | cons a t ih =>
    intro k hk h1 h2
    cases k with
    | zero =>
      have ha : p a = false := h2 0 (by simp) (le_refl 0)
      rw [List.countP_cons, ha]
      simp only [Bool.false_eq_true, if_false, Nat.add_zero]
      exact ih 0 (Nat.zero_le _) (fun i h hik => by omega)
        (fun i h _ => h2 (i + 1) (by simpa using Nat.succ_lt_succ h) (Nat.zero_le _))
    | succ k' =>
      have ha : p a = true := h1 0 (by simp) (Nat.succ_pos k')
      rw [List.countP_cons, ha, if_pos rfl]
      have := ih k' (by simpa using Nat.lt_succ_iff.mp (Nat.lt_of_lt_of_le (Nat.lt_succ_self _) hk))
        (fun i h hik => h1 (i + 1) (by simpa using Nat.succ_lt_succ h) (by omega))
        (fun i h hik => h2 (i + 1) (by simpa using Nat.succ_lt_succ h) (by omega))
      omega

/-- Over a strictly sorted list, the interpolated quantile cuts the list
exactly after index `⌊t⌋`: positions `≤ ⌊t⌋` are `≤` the value, later
positions are `>` it. -/
theorem interpAt_cut (s : List ℚ) (hss : s.Pairwise (· < ·)) (t : ℚ) (hne : s ≠ [])
    (h0 : 0 ≤ t) (hn : t ≤ (s.length : ℚ) - 1) :
    s.getD (⌊t⌋).toNat 0 ≤ interpAt s t ∧
    ∀ j (hj : j < s.length), (⌊t⌋).toNat < j → interpAt s t < s.getD j 0 := by
  have hsle : s.Pairwise (· ≤ ·) := hss.imp le_of_lt
  obtain ⟨hl0, hlu, huN, hlN⟩ := interp_index_bounds s t hne h0 hn
  refine ⟨(interpAt_bounds s hsle t hne h0 hn).1, ?_⟩
  intro j hj hjl
  by_cases hint : (⌊t⌋ : ℚ) = t
  · have hceil : ⌈t⌉ = ⌊t⌋ := by
      rw [← hint]
      exact_mod_cast Int.ceil_intCast ⌊t⌋
    have : interpAt s t = s.getD (⌊t⌋).toNat 0 := by
      rw [interpAt, hceil, ← hint]
      ring
    rw [this]
    exact getD_strict_mono_of_pairwise_lt s hss hjl hj
  · have ht1ni : (⌊t⌋ : ℚ) < t := lt_of_le_of_ne (Int.floor_le t) hint
    have hc1 : ⌈t⌉ = ⌊t⌋ + 1 := by
      have h2 : ⌈t⌉ ≤ ⌊t⌋ + 1 := Int.ceil_le_floor_add_one t
      have h3 : ⌊t⌋ < ⌈t⌉ := by
        have h4 := Int.le_ceil t
        have : (⌊t⌋ : ℚ) < (⌈t⌉ : ℚ) := lt_of_lt_of_le ht1ni h4
        exact_mod_cast this
      omega
    have hceilN : (⌈t⌉).toNat = (⌊t⌋).toNat + 1 := by omega
    have hAB : s.getD (⌊t⌋).toNat 0 < s.getD ((⌊t⌋).toNat + 1) 0 :=
      getD_strict_mono_of_pairwise_lt s hss (Nat.lt_succ_self _) (by omega)
    have hw1 : t - (⌊t⌋ : ℚ) < 1 := by
      have := Int.lt_floor_add_one t
      linarith
    have hint2 : interpAt s t < s.getD ((⌊t⌋).toNat + 1) 0 := by
      rw [interpAt, hceilN]
      nlinarith [hAB, hw1, ht1ni]
    rcases Nat.lt_or_ge ((⌊t⌋).toNat + 1) j with hj2 | hj2
    · exact lt_of_lt_of_le hint2 (getD_mono_of_pairwise_le s hsle (by omega) hj)
    · have : j = (⌊t⌋).toNat + 1 := by omega
      rw [this]
      exact hint2

/-- On a nonempty pairwise-distinct height field and interior quantile, the
number of cells `≤ findQuantile data q` is exactly `⌊q * (n - 1)⌋ + 1`. -/
theorem count_le_findQuantile (data : List ℚ) (hne : data ≠ [])
    (hdist : data.Pairwise (· ≠ ·)) (q : ℚ) (h0 : 0 < q) (h1 : q < 1) :
    data.countP (fun h => decide (h ≤ findQuantile data q)) =
      (⌊q * ((data.length : ℚ) - 1)⌋).toNat + 1 := by
  have hlen : 1 ≤ data.length := List.length_pos.mpr hne
  have hsne : jsSorted data ≠ [] := by
    intro h
    rw [← List.length_eq_zero, jsSorted_length] at h
    omega
  have hss : (jsSorted data).Pairwise (· < ·) := jsSorted_pairwise_lt data hdist
  set t := q * ((data.length : ℚ) - 1) with ht
  have h0t : 0 ≤ t := by
    have : (0 : ℚ) ≤ (data.length : ℚ) - 1 := by
      have : (1 : ℚ) ≤ (data.length : ℚ) := by exact_mod_cast hlen
      linarith
    positivity
  have hnt : t ≤ ((jsSorted data).length : ℚ) - 1 := by
    rw [jsSorted_length]
    have h1n : (0 : ℚ) ≤ (data.length : ℚ) - 1 := by
      have : (1 : ℚ) ≤ (data.length : ℚ) := by exact_mod_cast hlen
      linarith
    nlinarith
  obtain ⟨hl0, hlu, huN, hlN⟩ := interp_index_bounds (jsSorted data) t hsne h0t hnt
  obtain ⟨hcut1, hcut2⟩ := interpAt_cut (jsSorted data) hss t hsne h0t hnt
  have hq : findQuantile data q = interpAt (jsSorted data) t := by
    rw [findQuantile_eq_interpAt data hne q h0 h1]
  rw [hq]
  rw [← (jsSorted_perm data).countP_eq]
  have := countP_eq_of_cut (fun h => decide (h ≤ interpAt (jsSorted data) t))
    (jsSorted data) ((⌊t⌋).toNat + 1) (by omega)
    (fun i hi hik => by
      have hile : (jsSorted data).get ⟨i, hi⟩ ≤ interpAt (jsSorted data) t := by
        have hgi : (jsSorted data).getD i 0 ≤ (jsSorted data).getD (⌊t⌋).toNat 0 :=
          getD_mono_of_pairwise_le (jsSorted data) (hss.imp le_of_lt) (by omega) hlN
        rw [List.getD_eq_getElem _ 0 hi] at hgi
        calc (jsSorted data).get ⟨i, hi⟩ = (jsSorted data)[i] := rfl
          _ ≤ (jsSorted data).getD (⌊t⌋).toNat 0 := hgi
          _ ≤ interpAt (jsSorted data) t := hcut1
      exact decide_eq_true hile
    )
    (fun i hi hik => by
      have hgt : interpAt (jsSorted data) t < (jsSorted data).get ⟨i, hi⟩ := by
        have := hcut2 i hi (by omega)
        rw [List.getD_eq_getElem _ 0 hi] at this
        exact this
      simpa using not_le.mpr hgt
    )
  rw [this]

/-! ## C1: quantile sea level and measured coverage -/

/-- C1 (amended): for `0 < p < 100` the solver's sea level is exactly the
`p/100` quantile (sorted copy, linear interpolation).  The measured coverage
is NOT within `WATER_TOLERANCE` of `p` for every height field (see the
counterexample); for a field with pairwise-distinct heights the count of
cells `≤ seaLevel` is exactly `⌊p/100 * (n-1)⌋ + 1`, the coverage error is
at most `100/n` percentage points, and hence within `0.1` whenever the field
has at least 1000 cells (in particular for the 128×128 default grid). -/
theorem C1_amended_thm (data : List ℚ) (hne : data ≠ [])
    (hdist : data.Pairwise (· ≠ ·)) (p ε : ℚ) (h0 : 0 < p) (h1 : p < 100) :
    (solveSeaLevel data p ε).seaLevel = findQuantile data (p / 100) ∧
    (solveSeaLevel data p ε).cellsBelowSeaLevel =
      (⌊p / 100 * ((data.length : ℚ) - 1)⌋).toNat + 1 ∧
    |(solveSeaLevel data p ε).actualPercentage - p| ≤ 100 / (data.length : ℚ) ∧
    (1000 ≤ data.length → |(solveSeaLevel data p ε).actualPercentage - p| ≤ 1/10) := by
  have hq0 : 0 < p / 100 := by linarith
  have hq1 : p / 100 < 1 := by linarith
  have hcount := count_le_findQuantile data hne hdist (p / 100) hq0 hq1
  have hlen : 1 ≤ data.length := List.length_pos.mpr hne
  have hnQ : (1 : ℚ) ≤ (data.length : ℚ) := by exact_mod_cast hlen
  rw [solveSeaLevel_quantile data p ε h0 h1]
  have herr : |(((data.countP (fun h => decide (h ≤ findQuantile data (p / 100))) : ℕ) : ℚ) /
      (data.length : ℚ) * 100) - p| ≤ 100 / (data.length : ℚ) := by
    set q := p / 100 with hqdef
    set L : ℤ := ⌊q * ((data.length : ℚ) - 1)⌋ with hL
    have hL0 : 0 ≤ L := Int.le_floor.mpr (by push_cast; nlinarith)
    have hfl : (L : ℚ) ≤ q * ((data.length : ℚ) - 1) := Int.floor_le _
    have hfu : q * ((data.length : ℚ) - 1) < (L : ℚ) + 1 := Int.lt_floor_add_one _
    have hkey : |((L : ℚ) + 1) - q * (data.length : ℚ)| ≤ 1 := by
      rw [abs_le]
      constructor
      · nlinarith
      · nlinarith
    have htn : ((L.toNat : ℕ) : ℚ) = (L : ℚ) := by
      exact_mod_cast congrArg (fun z : ℤ => (z : ℚ)) (Int.toNat_of_nonneg hL0)
    have hcast : (((⌊q * ((data.length : ℚ) - 1)⌋).toNat + 1 : ℕ) : ℚ) = (L : ℚ) + 1 := by
      rw [← hL]
      push_cast
      rw [htn]
    rw [hcount, hcast]
    have hexp : ((L : ℚ) + 1) / (data.length : ℚ) * 100 - p =
        (((L : ℚ) + 1) - q * (data.length : ℚ)) * (100 / (data.length : ℚ)) := by
      field_simp
      ring
    rw [hexp, abs_mul, abs_of_pos (by positivity : (0:ℚ) < 100 / (data.length : ℚ))]
    nlinarith [hkey, abs_nonneg (((L : ℚ) + 1) - q * (data.length : ℚ)),
      (by positivity : (0:ℚ) < 100 / (data.length : ℚ))]
  refine ⟨rfl, hcount, herr, fun hbig => le_trans herr ?_⟩
  have hbigQ : (1000 : ℚ) ≤ (data.length : ℚ) := by exact_mod_cast hbig
  rw [div_le_div_iff₀ (by positivity) (by norm_num)]
  linarith

/-- C1 witness at the distinct field `[1, 2, 3]`, `p = 50`, `ε = 1/100`. -/
theorem C1_amended_witness :
    ([1, 2, 3] : List ℚ) ≠ [] ∧ ([1, 2, 3] : List ℚ).Pairwise (· ≠ ·) ∧
    (0 : ℚ) < 50 ∧ (50 : ℚ) < 100 ∧
    ((solveSeaLevel [1, 2, 3] 50 (1/100)).seaLevel = findQuantile [1, 2, 3] (50 / 100) ∧
    (solveSeaLevel [1, 2, 3] 50 (1/100)).cellsBelowSeaLevel =
      (⌊(50 : ℚ) / 100 * ((([1, 2, 3] : List ℚ).length : ℚ) - 1)⌋).toNat + 1 ∧
    |(solveSeaLevel [1, 2, 3] 50 (1/100)).actualPercentage - 50| ≤
      100 / (([1, 2, 3] : List ℚ).length : ℚ) ∧
    (1000 ≤ ([1, 2, 3] : List ℚ).length →
      |(solveSeaLevel [1, 2, 3] 50 (1/100)).actualPercentage - 50| ≤ 1/10)) :=
  ⟨by decide, by decide, by norm_num, by norm_num,
    C1_amended_thm [1, 2, 3] (by decide) (by decide) 50 (1/100) (by norm_num) (by norm_num)⟩

/-- C1 counterexample: on the height field `[1, 2]` with target `p = 15` the
solver returns the quantile `1.15` as sea level, but the measured coverage
is 50%, off by 35 percentage points — far outside `WATER_TOLERANCE = 0.1` —
refuting the universally quantified coverage part of the claim. -/
theorem C1_counterexample :
    (solveSeaLevel [1, 2] 15 (1/100)).seaLevel = findQuantile [1, 2] (15 / 100) ∧
    (solveSeaLevel [1, 2] 15 (1/100)).actualPercentage = 50 ∧
    ¬ |(solveSeaLevel [1, 2] 15 (1/100)).actualPercentage - 15| ≤ 1/10 := by
  have hq : findQuantile [1, 2] (15 / 100) = 23/20 := by
    have hc : (⌈(3:ℚ)/20⌉ : ℤ) = 1 := by norm_num [Int.ceil_eq_iff]
    norm_num [findQuantile, jsSorted, List.mergeSort, List.merge, hc]
  have hs := solveSeaLevel_quantile [1, 2] 15 (1/100) (by norm_num) (by norm_num)
  rw [hs]
  refine ⟨rfl, ?_, ?_⟩
  · dsimp only
    rw [hq]
    norm_num [List.countP, List.countP.go]
  · dsimp only
    rw [hq]
    norm_num [List.countP, List.countP.go]

/-! ## C4: monotonicity of the solved sea level in the target percentage -/

/-- The interior quantile lies between the minimum and maximum heights. -/
theorem findQuantile_bounds (data : List ℚ) (hne : data ≠ []) (q : ℚ)
    (h0 : 0 < q) (h1 : q < 1) :
    listMin data ≤ findQuantile data q ∧ findQuantile data q ≤ listMax data := by
  have hlen : 1 ≤ data.length := List.length_pos.mpr hne
  have hsne : jsSorted data ≠ [] := by
    intro h
    rw [← List.length_eq_zero, jsSorted_length] at h
    omega
  have hnQ : (1 : ℚ) ≤ (data.length : ℚ) := by exact_mod_cast hlen
  set t := q * ((data.length : ℚ) - 1) with ht
  have h0t : 0 ≤ t := by nlinarith
  have hnt : t ≤ ((jsSorted data).length : ℚ) - 1 := by
    rw [jsSorted_length]
    nlinarith
  obtain ⟨hl0, hlu, huN, hlN⟩ := interp_index_bounds (jsSorted data) t hsne h0t hnt
  obtain ⟨hb1, hb2⟩ := interpAt_bounds (jsSorted data) (jsSorted_pairwise_le data) t hsne h0t hnt
  rw [findQuantile_eq_interpAt data hne q h0 h1]
  constructor
  · calc listMin data ≤ (jsSorted data).getD (⌊t⌋).toNat 0 :=
        listMin_le data _ ((jsSorted_perm data).mem_iff.mp (getD_mem _ hlN))
      _ ≤ interpAt (jsSorted data) t := hb1
  · calc interpAt (jsSorted data) t ≤ (jsSorted data).getD (⌈t⌉).toNat 0 := hb2
      _ ≤ listMax data := le_listMax data _ ((jsSorted_perm data).mem_iff.mp (getD_mem _ huN))

/-- Monotonicity of `findQuantile` in the quantile (interior range). -/
theorem findQuantile_mono (data : List ℚ) (hne : data ≠ []) (q1 q2 : ℚ)
    (h01 : 0 < q1) (h12 : q1 ≤ q2) (h21 : q2 < 1) :
    findQuantile data q1 ≤ findQuantile data q2 := by
  have hlen : 1 ≤ data.length := List.length_pos.mpr hne
  have hsne : jsSorted data ≠ [] := by
    intro h
    rw [← List.length_eq_zero, jsSorted_length] at h
    omega
  have hnQ : (1 : ℚ) ≤ (data.length : ℚ) := by exact_mod_cast hlen
  rw [findQuantile_eq_interpAt data hne q1 h01 (lt_of_le_of_lt h12 h21),
    findQuantile_eq_interpAt data hne q2 (lt_of_lt_of_le h01 h12) h21]
  apply interpAt_mono (jsSorted data) (jsSorted_pairwise_le data) _ _ hsne
  · nlinarith
  · nlinarith
  · rw [jsSorted_length]
    nlinarith

/-- C4: for a fixed nonempty height field, `0 ≤ p1 ≤ p2 ≤ 100` and a
nonnegative solver epsilon, the solved sea level for `p2` is at least the
one for `p1` (covering all branch combinations: raise, quantile, full
cover). -/
theorem C4_thm (data : List ℚ) (hne : data ≠ []) (p1 p2 ε : ℚ) (h0 : 0 ≤ p1)
    (h12 : p1 ≤ p2) (h2 : p2 ≤ 100) (hε : 0 ≤ ε) :
    (solveSeaLevel data p1 ε).seaLevel ≤ (solveSeaLevel data p2 ε).seaLevel := by
  obtain ⟨x, hx⟩ := List.exists_mem_of_ne_nil data hne
  have hminmax : listMin data ≤ listMax data :=
    le_trans (listMin_le data x hx) (le_listMax data x hx)
  by_cases hp1z : p1 = 0
  · subst hp1z
    rw [solveSeaLevel_zero]
    by_cases hp2z : p2 = 0
    · subst hp2z
      rw [solveSeaLevel_zero]
    · by_cases hp2h : 100 ≤ p2
      · rw [solveSeaLevel_hundred data p2 ε hp2h]
        dsimp only
        linarith
      · have h02 : 0 < p2 := lt_of_le_of_ne h12 (Ne.symm hp2z)
        rw [solveSeaLevel_quantile data p2 ε h02 (not_le.mp hp2h)]
        dsimp only
        have := (findQuantile_bounds data hne (p2 / 100) (by linarith)
          (by linarith [not_le.mp hp2h])).1
        linarith
  · have h01 : 0 < p1 := lt_of_le_of_ne h0 (Ne.symm hp1z)
    by_cases hp1h : 100 ≤ p1
    · rw [solveSeaLevel_hundred data p1 ε hp1h,
        solveSeaLevel_hundred data p2 ε (le_trans hp1h h12)]
    · have h1lt : p1 < 100 := not_le.mp hp1h
      rw [solveSeaLevel_quantile data p1 ε h01 h1lt]
      by_cases hp2h : 100 ≤ p2
      · rw [solveSeaLevel_hundred data p2 ε hp2h]
        dsimp only
        have := (findQuantile_bounds data hne (p1 / 100) (by linarith) (by linarith)).2
        linarith
      · rw [solveSeaLevel_quantile data p2 ε (lt_of_lt_of_le h01 h12) (not_le.mp hp2h)]
        dsimp only
        exact findQuantile_mono data hne (p1 / 100) (p2 / 100) (by linarith)
          (by linarith) (by linarith [not_le.mp hp2h])

/-- C4 witness at the field `[3, 1, 2]` with `p1 = 20 ≤ p2 = 80`, `ε = 1/100`. -/
theorem C4_witness :
    ([3, 1, 2] : List ℚ) ≠ [] ∧ (0 : ℚ) ≤ 20 ∧ (20 : ℚ) ≤ 80 ∧ (80 : ℚ) ≤ 100 ∧
    (0 : ℚ) ≤ 1/100 ∧
    (solveSeaLevel [3, 1, 2] 20 (1/100)).seaLevel ≤
      (solveSeaLevel [3, 1, 2] 80 (1/100)).seaLevel :=
  ⟨by decide, by norm_num, by norm_num, by norm_num, by norm_num,
    C4_thm [3, 1, 2] (by decide) 20 80 (1/100) (by norm_num) (by norm_num)
      (by norm_num) (by norm_num)⟩

/-! ## Poisson geometry lemmas -/

theorem sqrt2js_pos : 0 < sqrt2js := by norm_num [sqrt2js]

theorem sqrt2js_sq_ge_two : 2 ≤ sqrt2js ^ 2 := by norm_num [sqrt2js]

theorem sqrt2js_le_two : sqrt2js ≤ 2 := by norm_num [sqrt2js]

theorem cellSize_pos (p : PoissonParams) (hr : 0 < p.minDistance) : 0 < cellSize p := by
  rw [cellSize]
  exact div_pos hr sqrt2js_pos

theorem two_cellSize_sq_le (p : PoissonParams) (hr : 0 < p.minDistance) :
    2 * cellSize p ^ 2 ≤ p.minDistance ^ 2 := by
  rw [cellSize, div_pow, ← mul_div_assoc, div_le_iff₀ (pow_pos sqrt2js_pos 2)]
  nlinarith [sqrt2js_sq_ge_two, sq_nonneg p.minDistance]

theorem minDist_le_two_cellSize (p : PoissonParams) (hr : 0 < p.minDistance) :
    p.minDistance ≤ 2 * cellSize p := by
  rw [cellSize, mul_div_assoc']
  rw [le_div_iff₀ sqrt2js_pos]
  nlinarith [sqrt2js_le_two, hr]

theorem gridWidth_cast (p : PoissonParams) (hok : PParamsOk p) :
    ((gridWidth p : ℕ) : ℤ) = ⌈p.width / cellSize p⌉ := by
  rw [gridWidth]
  exact Int.toNat_of_nonneg (le_of_lt (Int.ceil_pos.mpr
    (div_pos hok.wpos (cellSize_pos p hok.rpos))))
  
theorem gridHeight_cast (p : PoissonParams) (hok : PParamsOk p) :
    ((gridHeight p : ℕ) : ℤ) = ⌈p.height / cellSize p⌉ := by
  rw [gridHeight]
  exact Int.toNat_of_nonneg (le_of_lt (Int.ceil_pos.mpr
    (div_pos hok.hpos (cellSize_pos p hok.rpos))))

theorem cell_range (p : PoissonParams) (hok : PParamsOk p) (q : Pt) (hq : inBounds p q) :
    0 ≤ cellXOf p q ∧ cellXOf p q < (gridWidth p : ℤ) ∧
    0 ≤ cellYOf p q ∧ cellYOf p q < (gridHeight p : ℤ) := by
  obtain ⟨hx0, hxw, hy0, hyh⟩ := hq
  have hcs := cellSize_pos p hok.rpos
  refine ⟨Int.floor_nonneg.mpr (div_nonneg hx0 (le_of_lt hcs)), ?_,
    Int.floor_nonneg.mpr (div_nonneg hy0 (le_of_lt hcs)), ?_⟩
  · rw [gridWidth_cast p hok]
    have h1 : q.x / cellSize p < p.width / cellSize p := by gcongr
    have h2 : (⌊q.x / cellSize p⌋ : ℚ) < (⌈p.width / cellSize p⌉ : ℚ) :=
      lt_of_le_of_lt (Int.floor_le _) (lt_of_lt_of_le h1 (Int.le_ceil _))
    exact_mod_cast h2
  · rw [gridHeight_cast p hok]
    have h1 : q.y / cellSize p < p.height / cellSize p := by gcongr
    have h2 : (⌊q.y / cellSize p⌋ : ℚ) < (⌈p.height / cellSize p⌉ : ℚ) :=
      lt_of_le_of_lt (Int.floor_le _) (lt_of_lt_of_le h1 (Int.le_ceil _))
    exact_mod_cast h2

theorem cellIdx_cast (p : PoissonParams) (hok : PParamsOk p) (q : Pt) (hq : inBounds p q) :
    ((cellIdx p q : ℕ) : ℤ) = cellYOf p q * (gridWidth p : ℤ) + cellXOf p q := by
  obtain ⟨hx0, hxw, hy0, hyh⟩ := cell_range p hok q hq
  rw [cellIdx]
  exact Int.toNat_of_nonneg (by nlinarith)

theorem cellIdx_lt (p : PoissonParams) (hok : PParamsOk p) (q : Pt) (hq : inBounds p q) :
    cellIdx p q < gridWidth p * gridHeight p := by
  obtain ⟨hx0, hxw, hy0, hyh⟩ := cell_range p hok q hq
  have hcast := cellIdx_cast p hok q hq
  have hgw : (0:ℤ) < (gridWidth p : ℤ) := by omega
  have h1 : cellYOf p q * (gridWidth p : ℤ) + cellXOf p q <
      (gridWidth p : ℤ) * (gridHeight p : ℤ) := by
    have h2 : cellYOf p q ≤ (gridHeight p : ℤ) - 1 := by omega
    have h3 : cellYOf p q * (gridWidth p : ℤ) ≤ ((gridHeight p : ℤ) - 1) * (gridWidth p : ℤ) :=
      mul_le_mul_of_nonneg_right h2 (le_of_lt hgw)
    nlinarith
  have : ((cellIdx p q : ℕ) : ℤ) < ((gridWidth p * gridHeight p : ℕ) : ℤ) := by
    rw [hcast]
    push_cast
    linarith
  exact_mod_cast this

theorem cellIdx_inj (p : PoissonParams) (hok : PParamsOk p) {q1 q2 : Pt}
    (h1 : inBounds p q1) (h2 : inBounds p q2) (heq : cellIdx p q1 = cellIdx p q2) :
    cellXOf p q1 = cellXOf p q2 ∧ cellYOf p q1 = cellYOf p q2 := by
  obtain ⟨hx01, hxw1, hy01, hyh1⟩ := cell_range p hok q1 h1
  obtain ⟨hx02, hxw2, hy02, hyh2⟩ := cell_range p hok q2 h2
  have hcast1 := cellIdx_cast p hok q1 h1
  have hcast2 := cellIdx_cast p hok q2 h2
  have heqZ : cellYOf p q1 * (gridWidth p : ℤ) + cellXOf p q1 =
      cellYOf p q2 * (gridWidth p : ℤ) + cellXOf p q2 := by
    rw [← hcast1, ← hcast2, heq]
  have hgw : (0:ℤ) < (gridWidth p : ℤ) := by omega
  have hy : cellYOf p q1 = cellYOf p q2 := by
    rcases lt_trichotomy (cellYOf p q1) (cellYOf p q2) with h | h | h
    · exfalso
      have h5 : cellYOf p q1 + 1 ≤ cellYOf p q2 := h
      have h6 : (cellYOf p q1 + 1) * (gridWidth p : ℤ) ≤
          cellYOf p q2 * (gridWidth p : ℤ) :=
        mul_le_mul_of_nonneg_right h5 (le_of_lt hgw)
      nlinarith
    · exact h
    · exfalso
      have h5 : cellYOf p q2 + 1 ≤ cellYOf p q1 := h
      have h6 : (cellYOf p q2 + 1) * (gridWidth p : ℤ) ≤
          cellYOf p q1 * (gridWidth p : ℤ) :=
        mul_le_mul_of_nonneg_right h5 (le_of_lt hgw)
      nlinarith
  have hx : cellXOf p q1 = cellXOf p q2 := by
    rw [hy] at heqZ
    linarith
  exact ⟨hx, hy⟩

/-- Two points in the same background-grid cell are closer than
`minDistance` (cell side `= minDistance / √2`, half-open cells). -/
theorem same_cell_close (p : PoissonParams) (hr : 0 < p.minDistance) {a b : Pt}
    (hx : cellXOf p a = cellXOf p b) (hy : cellYOf p a = cellYOf p b) :
    dist2 a b < p.minDistance ^ 2 := by
  have hcs := cellSize_pos p hr
  have hΔ : ∀ u v : ℚ, ⌊u / cellSize p⌋ = ⌊v / cellSize p⌋ →
      (u - v) ^ 2 < cellSize p ^ 2 := by
    intro u v huv
    have h1 : (⌊u / cellSize p⌋ : ℚ) ≤ u / cellSize p := Int.floor_le _
    have h2 : u / cellSize p < (⌊u / cellSize p⌋ : ℚ) + 1 := Int.lt_floor_add_one _
    have h3 : (⌊v / cellSize p⌋ : ℚ) ≤ v / cellSize p := Int.floor_le _
    have h4 : v / cellSize p < (⌊v / cellSize p⌋ : ℚ) + 1 := Int.lt_floor_add_one _
    rw [huv] at h1 h2
    have h5 : u - v < cellSize p := by
      have hu : u < ((⌊v / cellSize p⌋ : ℚ) + 1) * cellSize p := (div_lt_iff₀ hcs).mp h2
      have hv : (⌊v / cellSize p⌋ : ℚ) * cellSize p ≤ v := (le_div_iff₀ hcs).mp h3
      nlinarith
    have h6 : -(cellSize p) < u - v := by
      have hv : v < ((⌊v / cellSize p⌋ : ℚ) + 1) * cellSize p := (div_lt_iff₀ hcs).mp h4
      have hu : (⌊v / cellSize p⌋ : ℚ) * cellSize p ≤ u := (le_div_iff₀ hcs).mp h1
      nlinarith
    exact sq_lt_sq' h6 h5
  have hxx := hΔ a.x b.x hx
  have hyy := hΔ a.y b.y hy
  have := two_cellSize_sq_le p hr
  rw [dist2]
  nlinarith

/-- Floor indices of points within `|u - v| < 2c` differ by at most 2. -/
theorem floor_diff_le (c : ℚ) (hc : 0 < c) (u v : ℚ) (h : |u - v| < 2 * c) :
    |⌊u / c⌋ - ⌊v / c⌋| ≤ 2 := by
  rw [abs_lt] at h
  have key : ∀ a b : ℚ, a - b < 2 * c → ⌊a / c⌋ - ⌊b / c⌋ ≤ 2 := by
    intro a b hab
    have h1 : a / c < b / c + 2 := by
      rw [div_add' _ _ _ (ne_of_gt hc)]
      rw [div_lt_div_iff_of_pos_right hc]
      linarith
    have h2 : ⌊a / c⌋ ≤ ⌊b / c + 2⌋ := Int.floor_le_floor (le_of_lt h1)
    have h3 : ⌊b / c + (2:ℤ)⌋ = ⌊b / c⌋ + 2 := Int.floor_add_int _ _
    have h4 : ⌊b / c + ((2:ℤ):ℚ)⌋ = ⌊b / c⌋ + 2 := h3
    push_cast at h4
    omega
  rw [abs_le]
  constructor
  · have := key v u (by linarith)
    omega
  · exact key u v h.2

/-- Points at squared distance `< minDistance²` occupy grid cells at offset
at most 2 in each coordinate (this is what makes the 5×5 scan complete). -/
theorem close_cells_near (p : PoissonParams) (hr : 0 < p.minDistance) {a b : Pt}
    (hd : dist2 a b < p.minDistance ^ 2) :
    |cellXOf p a - cellXOf p b| ≤ 2 ∧ |cellYOf p a - cellYOf p b| ≤ 2 := by
  have hcs := cellSize_pos p hr
  have h2cs := minDist_le_two_cellSize p hr
  rw [dist2] at hd
  have hax : |a.x - b.x| < 2 * cellSize p := by
    have h1 : |a.x - b.x| < p.minDistance := by
      nlinarith [sq_abs (a.x - b.x), sq_nonneg (a.y - b.y), abs_nonneg (a.x - b.x), hr]
    linarith
  have hay : |a.y - b.y| < 2 * cellSize p := by
    have h1 : |a.y - b.y| < p.minDistance := by
      nlinarith [sq_abs (a.y - b.y), sq_nonneg (a.x - b.x), abs_nonneg (a.y - b.y), hr]
    linarith
  exact ⟨floor_diff_le (cellSize p) hcs a.x b.x hax,
    floor_diff_le (cellSize p) hcs a.y b.y hay⟩

/-- Every offset pair with both components in `[-2, 2]` is scanned by the
5×5 neighborhood loop. -/
theorem mem_neighborOffsets (a b : ℤ) (ha1 : -2 ≤ a) (ha2 : a ≤ 2)
    (hb1 : -2 ≤ b) (hb2 : b ≤ 2) : (a, b) ∈ neighborOffsets := by
  interval_cases a <;> interval_cases b <;> decide

/-- What acceptance by `isValid` guarantees, given the loop invariant: the
candidate is in bounds, passes the mask, is at distance `≥ minDistance` from
EVERY existing sample (not only the scanned neighborhood — any closer sample
would be registered in a scanned cell), and its own grid cell is free. -/
theorem isValid_facts (p : PoissonParams) (hok : PParamsOk p) (st : PState)
    (hinv : PInv p st) (x y : ℚ) (hv : isValid p st.grid x y = true) :
    inBounds p ⟨x, y⟩ ∧
    (∀ m, p.mask = some m → m x y = true) ∧
    (∀ q ∈ st.samples, p.minDistance ^ 2 ≤ dist2 ⟨x, y⟩ q) ∧
    st.grid.getD (cellIdx p ⟨x, y⟩) none = none := by
  rw [isValid] at hv
  split_ifs at hv with hb hm
  push_neg at hb
  obtain ⟨hx0, hxw, hy0, hyh⟩ := hb
  have hxyb : inBounds p ⟨x, y⟩ := ⟨hx0, hxw, hy0, hyh⟩
  have hmask : ∀ m, p.mask = some m → m x y = true := by
    intro m hm'
    rw [hm'] at hm
    dsimp only at hm
    simpa using hm
  have hspace : ∀ q ∈ st.samples, p.minDistance ^ 2 ≤ dist2 ⟨x, y⟩ q := by
    intro q hq
    by_contra hlt
    push_neg at hlt
    have hqb := hinv.bounds q hq
    obtain ⟨hnx, hny⟩ := close_cells_near p hok.rpos hlt
    have hgx : cellXOf p ⟨x, y⟩ = ⌊x / cellSize p⌋ := rfl
    have hgy : cellYOf p ⟨x, y⟩ = ⌊y / cellSize p⌋ := rfl
    rw [hgx] at hnx
    rw [hgy] at hny
    rw [abs_le] at hnx hny
    have hdmem : (cellXOf p q - ⌊x / cellSize p⌋, cellYOf p q - ⌊y / cellSize p⌋) ∈
        neighborOffsets :=
      mem_neighborOffsets _ _ (by omega) (by omega) (by omega) (by omega)
    have happ := List.all_eq_true.mp hv _ hdmem
    rw [scanOk] at happ
    have e1 : ⌊x / cellSize p⌋ + (cellXOf p q - ⌊x / cellSize p⌋, cellYOf p q -
        ⌊y / cellSize p⌋).1 = cellXOf p q := by
      dsimp only
      ring
    have e2 : ⌊y / cellSize p⌋ + (cellXOf p q - ⌊x / cellSize p⌋, cellYOf p q -
        ⌊y / cellSize p⌋).2 = cellYOf p q := by
      dsimp only
      ring
    rw [e1, e2] at happ
    obtain ⟨hqx0, hqxw, hqy0, hqyh⟩ := cell_range p hok q hqb
    rw [if_neg (by push_neg; exact ⟨hqx0, hqxw, hqy0, hqyh⟩)] at happ
    have hidx : (cellYOf p q * (gridWidth p : ℤ) + cellXOf p q).toNat = cellIdx p q := rfl
    rw [hidx, hinv.reg q hq] at happ
    have := of_decide_eq_true happ
    rw [dist2] at hlt
    dsimp only at hlt
    linarith
  refine ⟨hxyb, hmask, hspace, ?_⟩
  by_cases hcell : st.grid.getD (cellIdx p ⟨x, y⟩) none = none
  · exact hcell
  · exfalso
    obtain ⟨q', hq'⟩ := Option.ne_none_iff_exists.mp hcell
    obtain ⟨hq'mem, hq'idx⟩ := hinv.gridSelf _ _ hq'.symm
    have hq'b := hinv.bounds q' hq'mem
    obtain ⟨hcx, hcy⟩ := cellIdx_inj p hok hq'b hxyb hq'idx
    have hclose := same_cell_close p hok.rpos hcx hcy
    have := hspace q' hq'mem
    have hsymm : dist2 q' ⟨x, y⟩ = dist2 ⟨x, y⟩ q' := by
      rw [dist2, dist2]
      ring
    rw [hsymm] at hclose
    linarith

theorem getD_some_lt {l : List (Option Pt)} {i : ℕ} {q : Pt}
    (h : l.getD i none = some q) : i < l.length := by
  by_contra hge
  rw [List.getD_eq_default _ _ (not_lt.mp hge)] at h
  exact Option.noConfusion h

theorem getD_set_self {α : Type} (l : List α) {i : ℕ} (hi : i < l.length) (a d : α) :
    (l.set i a).getD i d = a := by
  rw [List.getD_eq_getElem?_getD, List.getElem?_set, if_pos rfl, if_pos hi]
  rfl

theorem getD_set_ne {α : Type} (l : List α) {i j : ℕ} (hne : i ≠ j) (a d : α) :
    (l.set i a).getD j d = l.getD j d := by
  rw [List.getD_eq_getElem?_getD, List.getElem?_set, if_neg hne,
    ← List.getD_eq_getElem?_getD]

theorem nodup_lt_length_le (l : List ℕ) (n : ℕ) (hnd : l.Nodup)
    (h : ∀ x ∈ l, x < n) : l.length ≤ n := by
  have hsub : l.toFinset ⊆ Finset.range n := fun x hx =>
    Finset.mem_range.mpr (h x (List.mem_toFinset.mp hx))
  have := Finset.card_le_card hsub
  rwa [List.toFinset_card_of_nodup hnd, Finset.card_range] at this

/-- Each sample occupies its own grid cell, so there are at most as many
samples as grid cells. -/
theorem samples_le_cells (p : PoissonParams) (hok : PParamsOk p) (st : PState)
    (hinv : PInv p st) : st.samples.length ≤ gridWidth p * gridHeight p := by
  have hnd : st.samples.Nodup := by
    apply hinv.spacing.imp_of_mem
    intro a b _ _ hr heq
    subst heq
    have hz : dist2 a a = 0 := by rw [dist2]; ring
    rw [hz] at hr
    nlinarith [hok.rpos]
  have hmapnd : (st.samples.map (cellIdx p)).Nodup := by
    apply List.Nodup.map_on _ hnd
    intro a ha b hb heq
    have r1 := hinv.reg a ha
    have r2 := hinv.reg b hb
    rw [heq, r2] at r1
    exact (Option.some_inj.mp r1).symm
  have hlt : ∀ x ∈ st.samples.map (cellIdx p), x < gridWidth p * gridHeight p := by
    intro x hx
    rcases List.mem_map.mp hx with ⟨q, hq, rfl⟩
    exact cellIdx_lt p hok q (hinv.bounds q hq)
  have := nodup_lt_length_le _ _ hmapnd hlt
  rwa [List.length_map] at this

/-- `gridIndex` coincides with `cellIdx` on in-bounds points. -/
theorem gridIndex_inBounds (p : PoissonParams) (hok : PParamsOk p) {x y : ℚ}
    (hb : inBounds p ⟨x, y⟩) :
    gridIndex p x y = ((cellIdx p ⟨x, y⟩ : ℕ) : ℤ) ∧ 0 ≤ gridIndex p x y := by
  obtain ⟨hx0, hxw, hy0, hyh⟩ := cell_range p hok ⟨x, y⟩ hb
  rw [gridIndex]
  rw [if_neg (by push_neg; exact ⟨hx0, hxw, hy0, hyh⟩)]
  rw [cellIdx_cast p hok ⟨x, y⟩ hb]
  have e1 : cellXOf p (⟨x, y⟩ : Pt) = ⌊x / cellSize p⌋ := rfl
  have e2 : cellYOf p (⟨x, y⟩ : Pt) = ⌊y / cellSize p⌋ := rfl
  rw [e1] at hx0 hxw
  rw [e2] at hy0 hyh
  have hgw0 : (0:ℤ) ≤ (gridWidth p : ℤ) := Int.natCast_nonneg _
  refine ⟨rfl, ?_⟩
  nlinarith [mul_nonneg hy0 hgw0]

/-- `addPoint` preserves the invariant when the added point is in bounds,
passes the mask, is far from all samples, and lands in a free cell. -/
theorem addPoint_inv (p : PoissonParams) (hok : PParamsOk p) (st : PState)
    (hinv : PInv p st) (x y : ℚ) (hb : inBounds p ⟨x, y⟩)
    (hm : ∀ m, p.mask = some m → m x y = true)
    (hfar : ∀ q ∈ st.samples, p.minDistance ^ 2 ≤ dist2 ⟨x, y⟩ q)
    (hfree : st.grid.getD (cellIdx p ⟨x, y⟩) none = none) :
    PInv p (addPoint p st x y) ∧
    (addPoint p st x y).samples = st.samples ++ [⟨x, y⟩] ∧
    (addPoint p st x y).active = st.active ++ [⟨x, y⟩] ∧
    (addPoint p st x y).k = st.k := by
  obtain ⟨hgidx, hg0⟩ := gridIndex_inBounds p hok hb
  have hidxlt : cellIdx p ⟨x, y⟩ < st.grid.length := by
    rw [hinv.gridLen]
    exact cellIdx_lt p hok _ hb
  have hgrid : (addPoint p st x y).grid =
      st.grid.set (cellIdx p ⟨x, y⟩) (some ⟨x, y⟩) := by
    rw [addPoint]
    dsimp only
    rw [if_pos hg0, hgidx]
    simp
  refine ⟨⟨?_, ?_, ?_, ?_, ?_, ?_, ?_⟩, rfl, rfl, rfl⟩
  · rw [hgrid, List.length_set]
    exact hinv.gridLen
  · intro q hq
    rcases List.mem_append.mp hq with h | h
    · exact hinv.bounds q h
    · rw [List.mem_singleton.mp h]
      exact hb
  · intro q hq
    rw [hgrid]
    rcases List.mem_append.mp hq with h | h
    · have hreg := hinv.reg q h
      have hneq : cellIdx p ⟨x, y⟩ ≠ cellIdx p q := by
        intro heq
        rw [← heq, hfree] at hreg
        exact Option.noConfusion hreg
      rw [getD_set_ne st.grid hneq]
      exact hreg
    · rw [List.mem_singleton.mp h]
      exact getD_set_self st.grid hidxlt _ _
  · intro i q hq
    rw [hgrid] at hq
    by_cases hieq : cellIdx p ⟨x, y⟩ = i
    · subst hieq
      rw [getD_set_self st.grid hidxlt] at hq
      have : q = ⟨x, y⟩ := (Option.some_inj.mp hq).symm
      subst this
      exact ⟨List.mem_append.mpr (Or.inr (List.mem_singleton.mpr rfl)), rfl⟩
    · rw [getD_set_ne st.grid hieq] at hq
      obtain ⟨hmem, hidx⟩ := hinv.gridSelf i q hq
      exact ⟨List.mem_append.mpr (Or.inl hmem), hidx⟩
  · have hsamp : (addPoint p st x y).samples = st.samples ++ [⟨x, y⟩] := rfl
    rw [hsamp, List.pairwise_append]
    refine ⟨hinv.spacing, List.pairwise_singleton _ _, ?_⟩
    intro a ha b hbmem
    rw [List.mem_singleton.mp hbmem]
    have := hfar a ha
    have hsymm : dist2 a ⟨x, y⟩ = dist2 ⟨x, y⟩ a := by
      rw [dist2, dist2]
      ring
    rw [hsymm]
    exact this
  · exact List.Sublist.append hinv.activeSub (List.Sublist.refl _)
  · intro m hmm q hq
    rcases List.mem_append.mp hq with h | h
    · exact hinv.maskOk m hmm q h
    · rw [List.mem_singleton.mp h]
      exact hm m hmm

/-- One candidate attempt preserves the invariant; when it accepts, exactly
one sample (and one active entry) is appended. -/
theorem attemptStep_inv (p : PoissonParams) (hok : PParamsOk p) (prims : MathPrims)
    (pt : Pt) (st : PState) (hinv : PInv p st) :
    PInv p (attemptStep p prims pt st).1 ∧
    (attemptStep p prims pt st).1.samples.length + st.active.length =
      st.samples.length + (attemptStep p prims pt st).1.active.length ∧
    st.samples.length ≤ (attemptStep p prims pt st).1.samples.length ∧
    ((attemptStep p prims pt st).2 = false →
      (attemptStep p prims pt st).1.samples = st.samples ∧
      (attemptStep p prims pt st).1.active = st.active) ∧
    ((attemptStep p prims pt st).2 = true →
      st.samples.length < (attemptStep p prims pt st).1.samples.length) := by
  rw [attemptStep]
  set nx := pt.x + prims.cos (p.rng st.k * prims.twoPi) *
    (p.minDistance + p.rng (st.k + 1) * p.minDistance) with hnx
  set ny := pt.y + prims.sin (p.rng st.k * prims.twoPi) *
    (p.minDistance + p.rng (st.k + 1) * p.minDistance) with hny
  set st' : PState := { st with k := st.k + 2 } with hst'
  have hinv' : PInv p st' :=
    ⟨hinv.gridLen, hinv.bounds, hinv.reg, hinv.gridSelf, hinv.spacing,
      hinv.activeSub, hinv.maskOk⟩
  by_cases hv : isValid p st'.grid nx ny = true
  · rw [if_pos hv]
    dsimp only
    obtain ⟨hb, hm, hfar, hfree⟩ := isValid_facts p hok st' hinv' nx ny hv
    obtain ⟨hai, hsamp, hact, _⟩ := addPoint_inv p hok st' hinv' nx ny hb hm hfar hfree
    refine ⟨hai, ?_, ?_, ?_, ?_⟩
    · rw [hsamp, hact]
      simp only [List.length_append, List.length_singleton]
      omega
    · rw [hsamp]
      simp
    · intro hcontra
      exact Bool.noConfusion hcontra
    · intro _
      rw [hsamp]
      simp
  · rw [if_neg hv]
    dsimp only
    refine ⟨hinv', by omega, le_rfl, fun _ => ⟨rfl, rfl⟩, ?_⟩
    intro hcontra
    exact Bool.noConfusion hcontra

/-- The candidate loop preserves the invariant; sample growth matches active
growth, a raised `found` flag means at least one sample was added, and the
flag is monotone in its accumulator. -/
theorem attemptsLoop_inv (p : PoissonParams) (hok : PParamsOk p) (prims : MathPrims)
    (pt : Pt) : ∀ (n : ℕ) (st : PState) (f : Bool), PInv p st →
    PInv p (attemptsLoop p prims pt n st f).1 ∧
    (attemptsLoop p prims pt n st f).1.samples.length + st.active.length =
      st.samples.length + (attemptsLoop p prims pt n st f).1.active.length ∧
    st.samples.length ≤ (attemptsLoop p prims pt n st f).1.samples.length ∧
    ((attemptsLoop p prims pt n st f).2 = false →
      (attemptsLoop p prims pt n st f).1.samples = st.samples ∧
      (attemptsLoop p prims pt n st f).1.active = st.active) ∧
    ((attemptsLoop p prims pt n st f).2 = true →
      f = true ∨ st.samples.length < (attemptsLoop p prims pt n st f).1.samples.length) ∧
    (f = true → (attemptsLoop p prims pt n st f).2 = true) := by
  intro n
  induction n with
  | zero =>
    intro st f hinv
    rw [attemptsLoop]
    exact ⟨hinv, rfl, le_rfl, fun _ => ⟨rfl, rfl⟩, fun hf => Or.inl hf, fun hf => hf⟩
  | succ n ih =>
    intro st f hinv
    rw [attemptsLoop]
    obtain ⟨h1, h2, h3, h4, h5⟩ := attemptStep_inv p hok prims pt st hinv
    obtain ⟨g1, g2, g3, g4, g5, g6⟩ := ih (attemptStep p prims pt st).1
      (f || (attemptStep p prims pt st).2) h1
    refine ⟨g1, by omega, by omega, ?_, ?_, ?_⟩
    · intro hff
      have horf : (f || (attemptStep p prims pt st).2) = false := by
        by_contra hcon
        rw [← Bool.not_eq_true, not_not] at hcon
        exact Bool.noConfusion ((g6 hcon).symm.trans hff)
      obtain ⟨hfa, hfb⟩ := Bool.or_eq_false_iff.mp horf
      obtain ⟨ga, gb⟩ := g4 hff
      obtain ⟨ha, hb⟩ := h4 hfb
      exact ⟨ga.trans ha, gb.trans hb⟩
    · intro htrue
      rcases g5 htrue with hft | hlt
      · rcases Bool.or_eq_true_iff.mp hft with hf | hstep
        · exact Or.inl hf
        · exact Or.inr (lt_of_lt_of_le (h5 hstep) g3)
      · exact Or.inr (lt_of_le_of_lt h3 hlt)
    · intro hf
      exact g6 (by rw [hf, Bool.true_or])

/-- One iteration of the active-list loop preserves the invariant and
strictly decreases the termination measure. -/
theorem mainStep_inv (p : PoissonParams) (hok : PParamsOk p) (prims : MathPrims)
    (st : PState) (hinv : PInv p st) (hne : st.active ≠ []) :
    PInv p (mainStep p prims st) ∧
    pdsMeasure p (mainStep p prims st) < pdsMeasure p st := by
  have hlen : 1 ≤ st.active.length := List.length_pos.mpr hne
  have hidx : (⌊p.rng st.k * (st.active.length : ℚ)⌋).toNat < st.active.length := by
    obtain ⟨hr0, hr1⟩ := hok.rng01 st.k
    have h1 : p.rng st.k * (st.active.length : ℚ) < (st.active.length : ℚ) := by
      have : (0:ℚ) < (st.active.length : ℚ) := by exact_mod_cast hlen
      nlinarith
    have h2 : ⌊p.rng st.k * (st.active.length : ℚ)⌋ < (st.active.length : ℤ) :=
      Int.floor_lt.mpr (by exact_mod_cast h1)
    omega
  rw [mainStep]
  set index := (⌊p.rng st.k * (st.active.length : ℚ)⌋).toNat with hindexdef
  set point := st.active.getD index ⟨0, 0⟩ with hpointdef
  set st1 : PState := { st with k := st.k + 1 } with hst1
  have hinv1 : PInv p st1 :=
    ⟨hinv.gridLen, hinv.bounds, hinv.reg, hinv.gridSelf, hinv.spacing,
      hinv.activeSub, hinv.maskOk⟩
  obtain ⟨g1, g2, g3, g4, g5, _⟩ :=
    attemptsLoop_inv p hok prims point p.maxAttempts st1 false hinv1
  set r := attemptsLoop p prims point p.maxAttempts st1 false with hrdef
  have hT : r.1.samples.length ≤ gridWidth p * gridHeight p :=
    samples_le_cells p hok r.1 g1
  have e1 : st1.samples.length = st.samples.length := rfl
  have e2 : st1.active.length = st.active.length := rfl
  by_cases hfound : r.2 = true
  · rw [if_pos hfound]
    have hgrow := g5 hfound
    rcases hgrow with hcontra | hlt
    · exact Bool.noConfusion hcontra
    · refine ⟨g1, ?_⟩
      rw [pdsMeasure, pdsMeasure]
      rw [e1] at g3 hlt
      rw [e1, e2] at g2
      omega
  · rw [if_neg hfound]
    have hff : r.2 = false := Bool.not_eq_true _ |>.mp hfound
    obtain ⟨hsamp, hact⟩ := g4 hff
    have hersub : (r.1.active.eraseIdx index).Sublist r.1.samples :=
      (List.eraseIdx_sublist _ _).trans g1.activeSub
    refine ⟨⟨g1.gridLen, g1.bounds, g1.reg, g1.gridSelf, g1.spacing, hersub, g1.maskOk⟩, ?_⟩
    rw [pdsMeasure, pdsMeasure]
    dsimp only
    rw [List.length_eraseIdx]
    rw [hsamp, hact]
    rw [if_pos (show index < st1.active.length from hidx)]
    rw [(rfl : st1.samples.length = st.samples.length),
      (rfl : st1.active.length = st.active.length)]
    omega

/-- With fuel at least the measure, the main loop reaches an empty active
list and returns a state still satisfying the invariant. -/
theorem mainLoop_some (p : PoissonParams) (hok : PParamsOk p) (prims : MathPrims) :
    ∀ (fuel : ℕ) (st : PState), PInv p st → pdsMeasure p st ≤ fuel →
    ∃ stf, mainLoop p prims fuel st = some stf ∧ PInv p stf := by
  intro fuel
  induction fuel with
  | zero =>
    intro st hinv hm
    have hlen : st.active.length = 0 := by
      rw [pdsMeasure] at hm
      omega
    rw [mainLoop, if_pos (List.isEmpty_iff.mpr (List.length_eq_zero.mp hlen))]
    exact ⟨st, rfl, hinv⟩
  | succ fuel ih =>
    intro st hinv hm
    rw [mainLoop]
    by_cases hemp : st.active.isEmpty
    · rw [if_pos hemp]
      exact ⟨st, rfl, hinv⟩
    · rw [if_neg hemp]
      have hne : st.active ≠ [] := by
        intro h
        rw [h] at hemp
        exact hemp rfl
      obtain ⟨hinv', hdec⟩ := mainStep_inv p hok prims st hinv hne
      exact ih (mainStep p prims st) hinv' (by omega)

/-- A successful initial-point search returns an in-bounds point that passes
the mask (both the random draws and the center fallback are checked). -/
theorem initLoop_facts (p : PoissonParams) (hok : PParamsOk p) :
    ∀ (r k : ℕ) {x y : ℚ} {k' : ℕ}, initLoop p k r = (some (x, y), k') →
    inBounds p ⟨x, y⟩ ∧ ∀ m, p.mask = some m → m x y = true := by
  have hcenter : inBounds p ⟨p.width / 2, p.height / 2⟩ :=
    ⟨le_of_lt (div_pos hok.wpos (by norm_num)), half_lt_self hok.wpos,
      le_of_lt (div_pos hok.hpos (by norm_num)), half_lt_self hok.hpos⟩
  have hrand : ∀ k : ℕ, inBounds p ⟨p.rng k * p.width, p.rng (k + 1) * p.height⟩ := by
    intro k
    obtain ⟨ha0, ha1⟩ := hok.rng01 k
    obtain ⟨hb0, hb1⟩ := hok.rng01 (k + 1)
    refine ⟨mul_nonneg ha0 (le_of_lt hok.wpos), ?_, mul_nonneg hb0 (le_of_lt hok.hpos), ?_⟩
    · show p.rng k * p.width < p.width
      nlinarith [hok.wpos]
    · show p.rng (k + 1) * p.height < p.height
      nlinarith [hok.hpos]
  intro r
  induction r with
  | zero =>
    intro k x y k' h
    rw [initLoop] at h
    exact absurd (congrArg Prod.fst h) (by simp)
  | succ r ih =>
    intro k x y k' h
    rw [initLoop] at h
    dsimp only at h
    by_cases hr : r = 0
    · rw [if_pos hr] at h
      cases hp : p.mask with
      | some m =>
        rw [hp] at h
        dsimp only at h
        by_cases hm : m (p.width / 2) (p.height / 2) = true
        · rw [if_pos hm] at h
          have h1 : (p.width / 2, p.height / 2) = (x, y) := by
            have := congrArg Prod.fst h
            simpa using this
          obtain ⟨hx, hy⟩ := Prod.mk.injEq _ _ _ _ |>.mp h1
          subst hx
          subst hy
          exact ⟨hcenter, fun m' hm' => by
            rw [← Option.some_inj.mp hm']
            exact hm⟩
        · rw [if_neg hm] at h
          exact absurd (congrArg Prod.fst h) (by simp)
      | none =>
        rw [hp] at h
        dsimp only at h
        have h1 : (p.width / 2, p.height / 2) = (x, y) := by
          have := congrArg Prod.fst h
          simpa using this
        obtain ⟨hx, hy⟩ := Prod.mk.injEq _ _ _ _ |>.mp h1
        subst hx
        subst hy
        exact ⟨hcenter, fun m' hm' => Option.noConfusion hm'⟩
    · rw [if_neg hr] at h
      cases hp : p.mask with
      | some m =>
        rw [hp] at h
        dsimp only at h
        by_cases hm : m (p.rng k * p.width) (p.rng (k + 1) * p.height) = true
        · rw [if_pos hm] at h
          have h1 : (p.rng k * p.width, p.rng (k + 1) * p.height) = (x, y) := by
            have := congrArg Prod.fst h
            simpa using this
          obtain ⟨hx, hy⟩ := Prod.mk.injEq _ _ _ _ |>.mp h1
          subst hx
          subst hy
          exact ⟨hrand k, fun m' hm' => by
            rw [← Option.some_inj.mp hm']
            exact hm⟩
        · rw [if_neg hm] at h
          rw [← hp]
          exact ih (k + 2) h
      | none =>
        rw [hp] at h
        dsimp only at h
        have h1 : (p.rng k * p.width, p.rng (k + 1) * p.height) = (x, y) := by
          have := congrArg Prod.fst h
          simpa using this
        obtain ⟨hx, hy⟩ := Prod.mk.injEq _ _ _ _ |>.mp h1
        subst hx
        subst hy
        exact ⟨hrand k, fun m' hm' => Option.noConfusion hm'⟩

theorem getD_replicate_none (n i : ℕ) :
    (List.replicate n (none : Option Pt)).getD i none = none := by
  by_cases hi : i < n
  · rw [List.getD_eq_getElem _ _ (by simpa using hi)]
    exact List.getElem_replicate _ _
  · exact List.getD_eq_default _ _ (by simpa using not_lt.mp hi)

/-- The empty sampling state (fresh grid, no samples) satisfies the
invariant. -/
theorem emptyState_inv (p : PoissonParams) (k : ℕ) :
    PInv p (⟨List.replicate (gridWidth p * gridHeight p) none, [], [], k⟩ : PState) := by
  refine ⟨by simp, by simp, by simp, ?_, by simp, List.Sublist.refl _, by simp⟩
  intro i q hq
  rw [getD_replicate_none] at hq
  exact Option.noConfusion hq

/-! ## C5 and C10: Poisson minimum spacing and termination -/

/-- C5: any two distinct points in a completed `poissonDiskSampling` output
are at Euclidean distance at least `minDistance` (stated on squared
distances, which is equivalent for a positive `minDistance`).  Holds for
every positive domain, every `minDistance > 0`, every RNG stream with
values in `[0, 1)`, every `maxAttempts` and every suitability mask. -/
theorem C5_thm (p : PoissonParams) (prims : MathPrims) (hok : PParamsOk p)
    (out : List Pt) (kf : ℕ) (hout : poissonDiskSampling p prims = some (out, kf))
    (a b : Pt) (ha : a ∈ out) (hb : b ∈ out) (hab : a ≠ b) :
    p.minDistance ^ 2 ≤ (a.x - b.x) ^ 2 + (a.y - b.y) ^ 2 := by
  rw [poissonDiskSampling] at hout
  rcases hinit : initLoop p 0 101 with ⟨o, k⟩
  rw [hinit] at hout
  cases o with
  | none =>
    dsimp only at hout
    have heq := Option.some_inj.mp hout
    have ho : ([] : List Pt) = out := congrArg Prod.fst heq
    rw [← ho] at ha
    cases ha
  | some xy =>
    rcases xy with ⟨x, y⟩
    dsimp only at hout
    obtain ⟨hbnd, hmask⟩ := initLoop_facts p hok 101 0 hinit
    obtain ⟨hinv0, hsamp0, hact0, _⟩ := addPoint_inv p hok
      ⟨List.replicate (gridWidth p * gridHeight p) none, [], [], k⟩
      (emptyState_inv p k) x y hbnd hmask
      (by intro q hq; cases hq) (getD_replicate_none _ _)
    have hmeas : pdsMeasure p
        (addPoint p ⟨List.replicate (gridWidth p * gridHeight p) none, [], [], k⟩ x y) ≤
        pdsFuel p := by
      rw [pdsMeasure, pdsFuel, hsamp0, hact0]
      simp only [List.nil_append, List.length_singleton]
      omega
    obtain ⟨stf, hml, hinvf⟩ := mainLoop_some p hok prims (pdsFuel p) _ hinv0 hmeas
    rw [hml] at hout
    dsimp only at hout
    have heq := Option.some_inj.mp hout
    have hsame : stf.samples = out := congrArg Prod.fst heq
    rw [← hsame] at ha hb
    have hsymm : Symmetric (fun u v : Pt => p.minDistance ^ 2 ≤ dist2 u v) := by
      intro u v h
      have hd : dist2 v u = dist2 u v := by rw [dist2, dist2]; ring
      rw [hd]
      exact h
    have := hinvf.spacing.forall hsymm ha hb hab
    rw [dist2] at this
    exact this

/-! ### Witness evaluation of one concrete sampling run -/

theorem pW_gridWidth : gridWidth pW = 2 := by
  have h : (⌈(4:ℚ) / cellSize pW⌉ : ℤ) = 2 := by
    norm_num [cellSize, pW, sqrt2js, Int.ceil_eq_iff]
  rw [gridWidth, show pW.width = (4:ℚ) from rfl, h]
  rfl

theorem pW_gridHeight : gridHeight pW = 1 := by
  have h : (⌈(1:ℚ) / cellSize pW⌉ : ℤ) = 1 := by
    norm_num [cellSize, pW, sqrt2js, Int.ceil_eq_iff]
  rw [gridHeight, show pW.height = (1:ℚ) from rfl, h]
  rfl

theorem neighborOffsets_eq : neighborOffsets = [(-2,-2),(-1,-2),(0,-2),(1,-2),(2,-2),
  (-2,-1),(-1,-1),(0,-1),(1,-1),(2,-1),
  (-2,0),(-1,0),(0,0),(1,0),(2,0),
  (-2,1),(-1,1),(0,1),(1,1),(2,1),
  (-2,2),(-1,2),(0,2),(1,2),(2,2)] := by decide

theorem pW_floor_zero : (⌊(0:ℚ) / cellSize pW⌋ : ℤ) = 0 := by
  norm_num

theorem pW_floor_three : (⌊(3:ℚ) / cellSize pW⌋ : ℤ) = 1 := by
  norm_num [cellSize, pW, sqrt2js]

theorem pW_init : initLoop pW 0 101 = (some (0, 0), 2) := by
  norm_num [initLoop, pW]

theorem pW_st0 : addPoint pW ⟨List.replicate 2 none, [], [], 2⟩ 0 0 =
    ⟨[some ⟨0, 0⟩, none], [⟨0, 0⟩], [⟨0, 0⟩], 2⟩ := by
  rw [addPoint, gridIndex]
  rw [pW_gridWidth, pW_gridHeight]
  norm_num
  rfl

theorem pW_isValid1 : isValid pW [some ⟨0, 0⟩, none] 3 0 = true := by
  rw [isValid]
  rw [if_neg (by norm_num [pW])]
  rw [if_neg (by norm_num [pW])]
  rw [neighborOffsets_eq]
  norm_num [List.all_cons, scanOk, pW_floor_three, pW_floor_zero, pW_gridWidth, pW_gridHeight, List.getD,
    show pW.minDistance = 3 from rfl]

theorem pW_isValid2 : isValid pW [some ⟨0, 0⟩, some ⟨3, 0⟩] 3 0 = false := by
  rw [isValid]
  rw [if_neg (by norm_num [pW])]
  rw [if_neg (by norm_num [pW])]
  rw [neighborOffsets_eq]
  norm_num [List.all_cons, scanOk, pW_floor_three, pW_floor_zero, pW_gridWidth, pW_gridHeight, List.getD,
    show pW.minDistance = 3 from rfl]

theorem pW_isValid3 : isValid pW [some ⟨0, 0⟩, some ⟨3, 0⟩] 6 0 = false := by
  rw [isValid]
  rw [if_pos (by norm_num [pW])]

theorem pW_addPoint2 : addPoint pW ⟨[some ⟨0, 0⟩, none], [⟨0, 0⟩], [⟨0, 0⟩], 5⟩ 3 0 =
    ⟨[some ⟨0, 0⟩, some ⟨3, 0⟩], [⟨0, 0⟩, ⟨3, 0⟩], [⟨0, 0⟩, ⟨3, 0⟩], 5⟩ := by
  rw [addPoint, gridIndex]
  rw [pW_floor_three, pW_floor_zero, pW_gridWidth, pW_gridHeight]
  norm_num

theorem pW_attempt1 : attemptStep pW primsW ⟨0, 0⟩ ⟨[some ⟨0, 0⟩, none], [⟨0, 0⟩], [⟨0, 0⟩], 3⟩ =
    (⟨[some ⟨0, 0⟩, some ⟨3, 0⟩], [⟨0, 0⟩, ⟨3, 0⟩], [⟨0, 0⟩, ⟨3, 0⟩], 5⟩, true) := by
  rw [attemptStep]
  norm_num [show pW.rng 3 = 0 from rfl, show pW.rng 4 = 0 from rfl,
    show primsW.twoPi = (0:ℚ) from rfl, show primsW.cos 0 = (1:ℚ) from rfl,
    show primsW.sin 0 = (0:ℚ) from rfl, show pW.minDistance = (3:ℚ) from rfl,
    pW_isValid1, pW_addPoint2]

theorem pW_attemptsLoop1 :
    attemptsLoop pW primsW ⟨0, 0⟩ 1 ⟨[some ⟨0, 0⟩, none], [⟨0, 0⟩], [⟨0, 0⟩], 3⟩ false =
    (⟨[some ⟨0, 0⟩, some ⟨3, 0⟩], [⟨0, 0⟩, ⟨3, 0⟩], [⟨0, 0⟩, ⟨3, 0⟩], 5⟩, true) := by
  rw [attemptsLoop, pW_attempt1]
  rw [attemptsLoop]
  rfl

theorem pW_mainStep1 : mainStep pW primsW ⟨[some ⟨0, 0⟩, none], [⟨0, 0⟩], [⟨0, 0⟩], 2⟩ =
    ⟨[some ⟨0, 0⟩, some ⟨3, 0⟩], [⟨0, 0⟩, ⟨3, 0⟩], [⟨0, 0⟩, ⟨3, 0⟩], 5⟩ := by
  rw [mainStep]
  norm_num [show pW.rng 2 = 0 from rfl, show pW.maxAttempts = 1 from rfl,
    List.getD, pW_attemptsLoop1]

theorem pW_attempt2 : attemptStep pW primsW ⟨0, 0⟩
    ⟨[some ⟨0, 0⟩, some ⟨3, 0⟩], [⟨0, 0⟩, ⟨3, 0⟩], [⟨0, 0⟩, ⟨3, 0⟩], 6⟩ =
    (⟨[some ⟨0, 0⟩, some ⟨3, 0⟩], [⟨0, 0⟩, ⟨3, 0⟩], [⟨0, 0⟩, ⟨3, 0⟩], 8⟩, false) := by
  rw [attemptStep]
  norm_num [show pW.rng 6 = 0 from rfl, show pW.rng 7 = 0 from rfl,
    show primsW.twoPi = (0:ℚ) from rfl, show primsW.cos 0 = (1:ℚ) from rfl,
    show primsW.sin 0 = (0:ℚ) from rfl, show pW.minDistance = (3:ℚ) from rfl,
    pW_isValid2]

theorem pW_mainStep2 : mainStep pW primsW
    ⟨[some ⟨0, 0⟩, some ⟨3, 0⟩], [⟨0, 0⟩, ⟨3, 0⟩], [⟨0, 0⟩, ⟨3, 0⟩], 5⟩ =
    ⟨[some ⟨0, 0⟩, some ⟨3, 0⟩], [⟨0, 0⟩, ⟨3, 0⟩], [⟨3, 0⟩], 8⟩ := by
  rw [mainStep]
  norm_num [show pW.rng 5 = 0 from rfl, show pW.maxAttempts = 1 from rfl,
    List.getD, attemptsLoop, pW_attempt2, List.eraseIdx]

theorem pW_attempt3 : attemptStep pW primsW ⟨3, 0⟩
    ⟨[some ⟨0, 0⟩, some ⟨3, 0⟩], [⟨0, 0⟩, ⟨3, 0⟩], [⟨3, 0⟩], 9⟩ =
    (⟨[some ⟨0, 0⟩, some ⟨3, 0⟩], [⟨0, 0⟩, ⟨3, 0⟩], [⟨3, 0⟩], 11⟩, false) := by
  rw [attemptStep]
  norm_num [show pW.rng 9 = 0 from rfl, show pW.rng 10 = 0 from rfl,
    show primsW.twoPi = (0:ℚ) from rfl, show primsW.cos 0 = (1:ℚ) from rfl,
    show primsW.sin 0 = (0:ℚ) from rfl, show pW.minDistance = (3:ℚ) from rfl,
    pW_isValid3]

theorem pW_mainStep3 : mainStep pW primsW
    ⟨[some ⟨0, 0⟩, some ⟨3, 0⟩], [⟨0, 0⟩, ⟨3, 0⟩], [⟨3, 0⟩], 8⟩ =
    ⟨[some ⟨0, 0⟩, some ⟨3, 0⟩], [⟨0, 0⟩, ⟨3, 0⟩], [], 11⟩ := by
  rw [mainStep]
  norm_num [show pW.rng 8 = 0 from rfl, show pW.maxAttempts = 1 from rfl,
    List.getD, attemptsLoop, pW_attempt3, List.eraseIdx]

theorem pW_fuel : pdsFuel pW = 5 := by
  rw [pdsFuel, pW_gridWidth, pW_gridHeight]

theorem pW_mainLoop : mainLoop pW primsW 5 ⟨[some ⟨0, 0⟩, none], [⟨0, 0⟩], [⟨0, 0⟩], 2⟩ =
    some ⟨[some ⟨0, 0⟩, some ⟨3, 0⟩], [⟨0, 0⟩, ⟨3, 0⟩], [], 11⟩ := by
  rw [mainLoop, if_neg (by decide), pW_mainStep1]
  rw [mainLoop, if_neg (by decide), pW_mainStep2]
  rw [mainLoop, if_neg (by decide), pW_mainStep3]
  rw [mainLoop, if_pos (by decide)]

theorem pW_eval : poissonDiskSampling pW primsW = some ([⟨0, 0⟩, ⟨3, 0⟩], 11) := by
  rw [poissonDiskSampling, pW_init]
  dsimp only
  rw [show gridWidth pW * gridHeight pW = 2 by rw [pW_gridWidth, pW_gridHeight]]
  rw [pW_st0, pW_fuel, pW_mainLoop]

/-- C5 witness: width 4 × height 1, `minDistance = 3`, the constant-zero RNG
and an east-pointing candidate direction produce the two accepted points
`(0,0)` and `(3,0)`, exactly `minDistance` apart. -/
theorem C5_witness :
    PParamsOk pW ∧
    poissonDiskSampling pW primsW = some ([⟨0, 0⟩, ⟨3, 0⟩], 11) ∧
    (⟨0, 0⟩ : Pt) ∈ [(⟨0, 0⟩ : Pt), ⟨3, 0⟩] ∧ (⟨3, 0⟩ : Pt) ∈ [(⟨0, 0⟩ : Pt), ⟨3, 0⟩] ∧
    (⟨0, 0⟩ : Pt) ≠ ⟨3, 0⟩ ∧
    pW.minDistance ^ 2 ≤ ((⟨0, 0⟩ : Pt).x - (⟨3, 0⟩ : Pt).x) ^ 2 +
      ((⟨0, 0⟩ : Pt).y - (⟨3, 0⟩ : Pt).y) ^ 2 := by
  have hok : PParamsOk pW :=
    ⟨by norm_num [pW], by norm_num [pW], by norm_num [pW],
      fun n => ⟨le_rfl, by norm_num [pW]⟩⟩
  exact ⟨hok, pW_eval, by decide, by decide, by decide,
    C5_thm pW primsW hok _ 11 pW_eval _ _ (by decide) (by decide) (by decide)⟩

/-- C10: the sampler terminates — with the fuel bound `2·(grid cells) + 1`
the active-list loop always drains, for every positive finite domain,
`minDistance > 0` and RNG producing values in `[0, 1)`. -/
theorem C10_thm (p : PoissonParams) (prims : MathPrims) (hok : PParamsOk p) :
    (poissonDiskSampling p prims).isSome = true := by
  rw [poissonDiskSampling]
  rcases hinit : initLoop p 0 101 with ⟨o, k⟩
  cases o with
  | none => rfl
  | some xy =>
    rcases xy with ⟨x, y⟩
    dsimp only
    obtain ⟨hbnd, hmask⟩ := initLoop_facts p hok 101 0 hinit
    obtain ⟨hinv0, hsamp0, hact0, _⟩ := addPoint_inv p hok
      ⟨List.replicate (gridWidth p * gridHeight p) none, [], [], k⟩
      (emptyState_inv p k) x y hbnd hmask
      (by intro q hq; cases hq) (getD_replicate_none _ _)
    have hmeas : pdsMeasure p
        (addPoint p ⟨List.replicate (gridWidth p * gridHeight p) none, [], [], k⟩ x y) ≤
        pdsFuel p := by
      rw [pdsMeasure, pdsFuel, hsamp0, hact0]
      simp only [List.nil_append, List.length_singleton]
      omega
    obtain ⟨stf, hml, _⟩ := mainLoop_some p hok prims (pdsFuel p) _ hinv0 hmeas
    rw [hml]
    rfl

/-- C10 witness: the run of the C5 witness configuration terminates
(`isSome`). -/
theorem C10_witness :
    PParamsOk pW ∧ (poissonDiskSampling pW primsW).isSome = true :=
  ⟨⟨by norm_num [pW], by norm_num [pW], by norm_num [pW],
      fun n => ⟨le_rfl, by norm_num [pW]⟩⟩,
    C10_thm pW primsW
      ⟨by norm_num [pW], by norm_num [pW], by norm_num [pW],
        fun n => ⟨le_rfl, by norm_num [pW]⟩⟩⟩

/-! ## C7 and C9: tree placement constraints and the relaxation pass -/

theorem pCE_gridWidth : gridWidth pCE = 1 := by
  have h : (⌈(1:ℚ) / cellSize pCE⌉ : ℤ) = 1 := by
    norm_num [cellSize, pCE, sqrt2js, Int.ceil_eq_iff]
  rw [gridWidth, show pCE.width = (1:ℚ) from rfl, h]
  rfl

theorem pCE_gridHeight : gridHeight pCE = 1 := by
  have h : (⌈(1:ℚ) / cellSize pCE⌉ : ℤ) = 1 := by
    norm_num [cellSize, pCE, sqrt2js, Int.ceil_eq_iff]
  rw [gridHeight, show pCE.height = (1:ℚ) from rfl, h]
  rfl

theorem mCE_zero : mCE 0 0 = true := by
  norm_num [mCE, tdCE]

theorem pCE_init : initLoop pCE 0 101 = (some (0, 0), 2) := by
  rw [initLoop]
  dsimp only
  rw [if_neg (by norm_num)]
  rw [show pCE.mask = some mCE from rfl]
  dsimp only
  rw [show pCE.rng 0 * pCE.width = (0:ℚ) by norm_num [pCE],
    show pCE.rng 1 * pCE.height = (0:ℚ) by norm_num [pCE]]
  rw [if_pos mCE_zero]

theorem pCE_st0 : addPoint pCE ⟨List.replicate 1 none, [], [], 2⟩ 0 0 =
    ⟨[some ⟨0, 0⟩], [⟨0, 0⟩], [⟨0, 0⟩], 2⟩ := by
  rw [addPoint, gridIndex]
  rw [pCE_gridWidth, pCE_gridHeight]
  norm_num [cellSize, pCE, sqrt2js]

theorem pCE_attemptFail (st : PState) :
    attemptStep pCE primsW ⟨0, 0⟩ st = ({st with k := st.k + 2}, false) := by
  rw [attemptStep]
  dsimp only
  rw [show pCE.rng st.k = 0 from rfl, show pCE.rng (st.k + 1) = 0 from rfl,
    show primsW.twoPi = (0:ℚ) from rfl]
  rw [if_neg ?hv]
  case hv =>
    rw [isValid]
    rw [if_pos ?hb]
    · simp
    case hb =>
      right; left
      show pCE.width ≤ (0:ℚ) + primsW.cos (0 * 0) * (pCE.minDistance + 0 * pCE.minDistance)
      norm_num [pCE, primsW]

theorem attemptsLoop_constFail (p : PoissonParams) (prims : MathPrims) (pt : Pt)
    (H : ∀ st : PState, attemptStep p prims pt st = ({st with k := st.k + 2}, false)) :
    ∀ (n : ℕ) (st : PState) (f : Bool),
      attemptsLoop p prims pt n st f = ({st with k := st.k + 2 * n}, f) := by
  intro n
  induction n with
  | zero => intro st f; rfl
  | succ n ih =>
    intro st f
    rw [attemptsLoop]
    rw [H st]
    rw [Bool.or_false]
    rw [ih]
    have he : st.k + 2 + 2 * n = st.k + 2 * (n + 1) := by ring
    rw [he]

theorem pCE_mainStep : mainStep pCE primsW ⟨[some ⟨0, 0⟩], [⟨0, 0⟩], [⟨0, 0⟩], 2⟩ =
    ⟨[some ⟨0, 0⟩], [⟨0, 0⟩], [], 63⟩ := by
  rw [mainStep]
  dsimp only
  rw [show pCE.rng 2 = 0 from rfl]
  norm_num [List.getD]
  rw [show pCE.maxAttempts = 30 from rfl]
  rw [attemptsLoop_constFail pCE primsW ⟨0, 0⟩ pCE_attemptFail 30]
  rfl

theorem pCE_fuel : pdsFuel pCE = 3 := by
  rw [pdsFuel, pCE_gridWidth, pCE_gridHeight]

theorem pCE_mainLoop : mainLoop pCE primsW 3 ⟨[some ⟨0, 0⟩], [⟨0, 0⟩], [⟨0, 0⟩], 2⟩ =
    some ⟨[some ⟨0, 0⟩], [⟨0, 0⟩], [], 63⟩ := by
  rw [mainLoop, if_neg (by decide), pCE_mainStep]
  rw [mainLoop, if_pos (by decide)]

theorem pCE_eval : poissonDiskSampling pCE primsW = some ([⟨0, 0⟩], 63) := by
  rw [poissonDiskSampling, pCE_init]
  dsimp only
  rw [show gridWidth pCE * gridHeight pCE = 1 by rw [pCE_gridWidth, pCE_gridHeight]]
  rw [pCE_st0, pCE_fuel, pCE_mainLoop]

theorem pCE_run : poissonRun pCE primsW = ([⟨0, 0⟩], 63) := by
  rw [poissonRun, pCE_eval]
  rfl

theorem recCE_eq : (⟨(tdCE.width : ℚ) * tdCE.cellSize, (tdCE.height : ℚ) * tdCE.cellSize,
    jsOr cfgCE.TREE_MIN_SPACING 3, fun _ => (0:ℚ), 30,
    some (fun x y =>
      decide ((if ⌊x / tdCE.cellSize⌋ < 0 ∨ (tdCE.width : ℤ) ≤ ⌊x / tdCE.cellSize⌋ ∨
          ⌊y / tdCE.cellSize⌋ < 0 ∨ (tdCE.height : ℤ) ≤ ⌊y / tdCE.cellSize⌋ then (0 : ℚ)
        else ([1] : List ℚ).getD (⌊y / tdCE.cellSize⌋ * (tdCE.width : ℤ) + ⌊x / tdCE.cellSize⌋).toNat 0) ≠ 0))⟩ :
    PoissonParams) = pCE := by
  rw [pCE]
  congr 1 <;> norm_num [tdCE, cfgCE, jsOr]

theorem tpmCE_eval :
    treePlacementFromMask primsW tdCE cfgCE (fun _ => 0) [1] 1 = [⟨0, 0, 60⟩] := by
  rw [treePlacementFromMask]
  dsimp only
  rw [if_neg (by norm_num [jsOr, cfgCE])]
  rw [recCE_eq]
  rw [pCE_run]
  dsimp only
  rw [show ((⌊((1:ℕ) : ℚ) * jsOr cfgCE.FOREST_PERCENTAGE 0 / 100 / 3⌋).toNat) = 1 from by
    norm_num [jsOr, cfgCE]]
  rw [selectBestTreePositions]
  rw [if_pos (by norm_num)]
  simp only [List.map_cons, List.map_nil]
  norm_num [getHeightAt, tdCE]

theorem slopesCE : calculateSlopes primsW tdCE.elevation tdCE.width tdCE.height tdCE.cellSize =
    [0] := rfl

theorem maskCE : createTreeSuitabilityMask tdCE.elevation [0] tdCE.width tdCE.height
    tdCE.seaLevel cfgCE = [1] := by
  norm_num [createTreeSuitabilityMask, tdCE, cfgCE, jsOr, List.range_succ]

theorem treeEvalCE : generateTreePositions primsW tdCE cfgCE (fun _ => 0) = [⟨0, 0, 60⟩] := by
  rw [generateTreePositions]
  dsimp only
  rw [slopesCE, maskCE]
  rw [show (([1] : List ℚ).countP (fun v => decide (0 < v))) = 1 from by norm_num]
  rw [if_neg (by norm_num)]
  exact tpmCE_eval

theorem snd_mem_of_mem_enumFrom {α : Type} :
    ∀ (l : List α) (n : ℕ) (p : ℕ × α), p ∈ l.enumFrom n → p.2 ∈ l := by
  intro l
  induction l with
  | nil => intro n p hp; cases hp
  | cons a l ih =>
    intro n p hp
    rw [List.enumFrom] at hp
    rcases List.mem_cons.mp hp with h | h
    · rw [h]
      exact List.mem_cons_self a l
    · exact List.mem_cons_of_mem a (ih (n + 1) p h)

theorem snd_mem_of_mem_enum {α : Type} (l : List α) (p : ℕ × α) (hp : p ∈ l.enum) :
    p.2 ∈ l :=
  snd_mem_of_mem_enumFrom l 0 p hp

/-- Every placement returned by `selectBestTreePositions` takes its `x`/`z`
coordinates from one of the Poisson candidates. -/
theorem selectBest_mem (cands : List Pt) (t : ℕ) (e : List ℚ) (w h : ℕ) (cs : ℚ)
    (rng : ℕ → ℚ) (k : ℕ) (pos : TreePos)
    (hpos : pos ∈ selectBestTreePositions cands t e w h cs rng k) :
    ∃ c ∈ cands, pos.x = c.x ∧ pos.z = c.y := by
  rw [selectBestTreePositions] at hpos
  by_cases hle : cands.length ≤ t
  · rw [if_pos hle] at hpos
    obtain ⟨c, hc, heq⟩ := List.mem_map.mp hpos
    exact ⟨c, hc, by rw [← heq], by rw [← heq]⟩
  · rw [if_neg hle] at hpos
    dsimp only at hpos
    obtain ⟨sc, hsc, heq⟩ := List.mem_map.mp hpos
    have hsc2 : sc ∈ (cands.enum.map (fun ip =>
        let hgt := getHeightAt ip.2.x ip.2.y e w h cs
        let midElevationScore := 1 - |hgt - 25| / 25
        let randomScore := rng (k + ip.1)
        (⟨ip.2.x, ip.2.y, hgt, midElevationScore * (7/10) + randomScore * (3/10)⟩ : ScoredPos))) := by
      have htake := List.mem_of_mem_take hsc
      exact (List.mergeSort_perm _ _).mem_iff.mp htake
    obtain ⟨ip, hip, hip2⟩ := List.mem_map.mp hsc2
    refine ⟨ip.2, snd_mem_of_mem_enum _ _ hip, ?_, ?_⟩
    · rw [← heq, ← hip2]
    · rw [← heq, ← hip2]

/-- Every sample output by a completed run satisfies the suitability mask
(when one is supplied). -/
theorem poisson_samples_mask (p : PoissonParams) (prims : MathPrims) (hok : PParamsOk p)
    (out : List Pt) (kf : ℕ) (hout : poissonDiskSampling p prims = some (out, kf))
    (m : ℚ → ℚ → Bool) (hm : p.mask = some m) :
    ∀ q ∈ out, m q.x q.y = true := by
  rw [poissonDiskSampling] at hout
  rcases hinit : initLoop p 0 101 with ⟨o, k⟩
  rw [hinit] at hout
  cases o with
  | none =>
    dsimp only at hout
    have heq := Option.some_inj.mp hout
    have ho : ([] : List Pt) = out := congrArg Prod.fst heq
    intro q hq
    rw [← ho] at hq
    cases hq
  | some xy =>
    rcases xy with ⟨x, y⟩
    dsimp only at hout
    obtain ⟨hbnd, hmask⟩ := initLoop_facts p hok 101 0 hinit
    obtain ⟨hinv0, hsamp0, hact0, _⟩ := addPoint_inv p hok
      ⟨List.replicate (gridWidth p * gridHeight p) none, [], [], k⟩
      (emptyState_inv p k) x y hbnd hmask
      (by intro q hq; cases hq) (getD_replicate_none _ _)
    have hmeas : pdsMeasure p
        (addPoint p ⟨List.replicate (gridWidth p * gridHeight p) none, [], [], k⟩ x y) ≤
        pdsFuel p := by
      rw [pdsMeasure, pdsFuel, hsamp0, hact0]
      simp only [List.nil_append, List.length_singleton]
      omega
    obtain ⟨stf, hml, hinvf⟩ := mainLoop_some p hok prims (pdsFuel p) _ hinv0 hmeas
    rw [hml] at hout
    dsimp only at hout
    have heq := Option.some_inj.mp hout
    have hsame : stf.samples = out := congrArg Prod.fst heq
    intro q hq
    rw [← hsame] at hq
    exact hinvf.maskOk m hm q hq

/-- `poissonRun` version of the mask-satisfaction fact. -/
theorem poissonRun_mask (p : PoissonParams) (prims : MathPrims) (hok : PParamsOk p)
    (m : ℚ → ℚ → Bool) (hm : p.mask = some m) :
    ∀ q ∈ (poissonRun p prims).1, m q.x q.y = true := by
  rw [poissonRun]
  rcases hrun : poissonDiskSampling p prims with _ | ⟨out, kf⟩
  · intro q hq
    cases hq
  · exact poisson_samples_mask p prims hok out kf hrun m hm

/-- A nonzero entry of the strict suitability mask certifies the (non-strict)
height and slope bounds of its cell. -/
theorem suitMask_getD_facts (elevation slopes : List ℚ) (w h : ℕ) (sea : ℚ)
    (cfg : Config) (i : ℕ) (hi : i < w * h)
    (hne : (createTreeSuitabilityMask elevation slopes w h sea cfg).getD i 0 ≠ 0) :
    sea + jsOr cfg.TREE_BEACH_BUFFER 2 ≤ elevation.getD i 0 ∧
    elevation.getD i 0 ≤ jsOr cfg.TREE_MAX_HEIGHT 60 ∧
    slopes.getD i 0 ≤ jsOr cfg.TREE_MAX_SLOPE 35 := by
  rw [createTreeSuitabilityMask] at hne
  dsimp only at hne
  rw [List.getD_eq_getElem _ _ (by simpa using hi)] at hne
  rw [List.getElem_map, List.getElem_range] at hne
  split_ifs at hne with h1 h2 h3
  · exact absurd rfl hne
  · exact absurd rfl hne
  · exact absurd rfl hne
  · exact ⟨not_lt.mp h1, not_lt.mp h2, not_lt.mp h3⟩

/-- C7 (amended): on the strict path (at least one strictly-suitable cell),
every placement returned by `generateTreePositions` takes its coordinates
from a Poisson candidate whose grid cell passed the suitability tests, so
the cell's height is at least `seaLevel + beachBuffer`, at most
`TREE_MAX_HEIGHT`, and its slope is at most `TREE_MAX_SLOPE` — all
NON-strict bounds, because the rejection tests in
`createTreeSuitabilityMask` are strict (`<`, `>`), so boundary values pass. -/
theorem C7_amended_thm (prims : MathPrims) (td : TerrainData) (cfg : Config) (rng : ℕ → ℚ)
    (hcs : 0 < td.cellSize) (hw : 0 < td.width) (hh : 0 < td.height)
    (hr : 0 < jsOr cfg.TREE_MIN_SPACING 3)
    (hrng : ∀ n, 0 ≤ rng n ∧ rng n < 1)
    (hstrict : (createTreeSuitabilityMask td.elevation
        (calculateSlopes prims td.elevation td.width td.height td.cellSize)
        td.width td.height td.seaLevel cfg).countP (fun v => decide (0 < v)) ≠ 0) :
    ∀ pos ∈ generateTreePositions prims td cfg rng,
      ∃ i : ℕ,
        (i : ℤ) = ⌊pos.z / td.cellSize⌋ * (td.width : ℤ) + ⌊pos.x / td.cellSize⌋ ∧
        i < td.width * td.height ∧
        td.seaLevel + jsOr cfg.TREE_BEACH_BUFFER 2 ≤ td.elevation.getD i 0 ∧
        td.elevation.getD i 0 ≤ jsOr cfg.TREE_MAX_HEIGHT 60 ∧
        (calculateSlopes prims td.elevation td.width td.height td.cellSize).getD i 0 ≤
          jsOr cfg.TREE_MAX_SLOPE 35 := by
  intro pos hpos
  rw [generateTreePositions] at hpos
  dsimp only at hpos
  rw [if_neg hstrict] at hpos
  rw [treePlacementFromMask] at hpos
  dsimp only at hpos
  by_cases hfp : jsOr cfg.FOREST_PERCENTAGE 0 ≤ 0
  · rw [if_pos hfp] at hpos
    cases hpos
  · rw [if_neg hfp] at hpos
    obtain ⟨c, hc, hx, hz⟩ := selectBest_mem _ _ _ _ _ _ _ _ pos hpos
    rw [hx, hz]
    have hwq : (0:ℚ) < (td.width : ℚ) := by exact_mod_cast hw
    have hhq : (0:ℚ) < (td.height : ℚ) := by exact_mod_cast hh
    have hmc := poissonRun_mask _ prims
      ⟨mul_pos hwq hcs, mul_pos hhq hcs, hr, hrng⟩ _ rfl c hc
    have hval := of_decide_eq_true hmc
    by_cases hb : (⌊c.x / td.cellSize⌋ < 0 ∨ (td.width : ℤ) ≤ ⌊c.x / td.cellSize⌋ ∨
        ⌊c.y / td.cellSize⌋ < 0 ∨ (td.height : ℤ) ≤ ⌊c.y / td.cellSize⌋)
    · rw [if_pos hb] at hval
      exact absurd rfl hval
    · rw [if_neg hb] at hval
      push_neg at hb
      obtain ⟨hb1, hb2, hb3, hb4⟩ := hb
      have hiz : (0:ℤ) ≤ ⌊c.y / td.cellSize⌋ * (td.width : ℤ) + ⌊c.x / td.cellSize⌋ := by
        have := mul_nonneg hb3 (Int.ofNat_nonneg td.width)
        omega
      have hlt : ⌊c.y / td.cellSize⌋ * (td.width : ℤ) + ⌊c.x / td.cellSize⌋ <
          ((td.width * td.height : ℕ) : ℤ) := by
        push_cast
        nlinarith [hb1, hb2, hb3, hb4]
      refine ⟨(⌊c.y / td.cellSize⌋ * (td.width : ℤ) + ⌊c.x / td.cellSize⌋).toNat,
        Int.toNat_of_nonneg hiz, by omega, ?_⟩
      exact suitMask_getD_facts td.elevation _ td.width td.height td.seaLevel cfg _
        (by omega) hval

/-- C7 counterexample: a single-cell terrain whose height is exactly
`TREE_MAX_HEIGHT = 60` (sea level 0, flat, defaults otherwise).  The strict
mask accepts the cell (`h > maxHeight` fails at equality), the run returns
the placement `(0, 0)` with sampled height exactly `60`, and
`60 < TREE_MAX_HEIGHT` is false — refuting the claim's strict
`height < maxHeight` bound (the same run also refutes strictness of the
other two bounds, as the amended theorem shows they are `≤`/`≥`). -/
theorem C7_counterexample :
    generateTreePositions primsW tdCE cfgCE (fun _ => 0) = [⟨0, 0, 60⟩] ∧
    (⟨0, 0, 60⟩ : TreePos) ∈ generateTreePositions primsW tdCE cfgCE (fun _ => 0) ∧
    (⟨0, 0, 60⟩ : TreePos).height =
      getHeightAt (⟨0, 0, 60⟩ : TreePos).x (⟨0, 0, 60⟩ : TreePos).z tdCE.elevation
        tdCE.width tdCE.height tdCE.cellSize ∧
    ¬((⟨0, 0, 60⟩ : TreePos).height < jsOr cfgCE.TREE_MAX_HEIGHT 60) := by
  refine ⟨treeEvalCE, ?_, ?_, ?_⟩
  · rw [treeEvalCE]
    exact List.mem_singleton.mpr rfl
  · norm_num [getHeightAt, tdCE]
  · norm_num [jsOr, cfgCE]

/-- C7 amended witness: the amended theorem applied to the concrete
single-cell run at height 60, checking the non-strict bounds there. -/
theorem C7_amended_witness :
    (createTreeSuitabilityMask tdCE.elevation
        (calculateSlopes primsW tdCE.elevation tdCE.width tdCE.height tdCE.cellSize)
        tdCE.width tdCE.height tdCE.seaLevel cfgCE).countP (fun v => decide (0 < v)) ≠ 0 ∧
    (⟨0, 0, 60⟩ : TreePos) ∈ generateTreePositions primsW tdCE cfgCE (fun _ => 0) ∧
    (∃ i : ℕ,
      (i : ℤ) = ⌊(⟨0, 0, 60⟩ : TreePos).z / tdCE.cellSize⌋ * (tdCE.width : ℤ) +
        ⌊(⟨0, 0, 60⟩ : TreePos).x / tdCE.cellSize⌋ ∧
      i < tdCE.width * tdCE.height ∧
      tdCE.seaLevel + jsOr cfgCE.TREE_BEACH_BUFFER 2 ≤ tdCE.elevation.getD i 0 ∧
      tdCE.elevation.getD i 0 ≤ jsOr cfgCE.TREE_MAX_HEIGHT 60 ∧
      (calculateSlopes primsW tdCE.elevation tdCE.width tdCE.height tdCE.cellSize).getD i 0 ≤
        jsOr cfgCE.TREE_MAX_SLOPE 35) := by
  have hstrict : (createTreeSuitabilityMask tdCE.elevation
      (calculateSlopes primsW tdCE.elevation tdCE.width tdCE.height tdCE.cellSize)
      tdCE.width tdCE.height tdCE.seaLevel cfgCE).countP (fun v => decide (0 < v)) ≠ 0 := by
    rw [slopesCE, maskCE]
    norm_num
  have hmem : (⟨0, 0, 60⟩ : TreePos) ∈ generateTreePositions primsW tdCE cfgCE (fun _ => 0) := by
    rw [treeEvalCE]
    exact List.mem_singleton.mpr rfl
  exact ⟨hstrict, hmem,
    C7_amended_thm primsW tdCE cfgCE (fun _ => 0) (by norm_num [tdCE])
      (by norm_num [tdCE]) (by norm_num [tdCE]) (by norm_num [jsOr, cfgCE])
      (fun n => ⟨le_rfl, by norm_num⟩) hstrict _ hmem⟩

/-- C9 (amended): when the strict mask has zero suitable cells,
`generateTreePositions` runs exactly one relaxation pass whose mask uses
the FIXED thresholds `relaxedMinHeight = seaLevel + 1.0` and
`relaxedMaxSlope = 45` (together with the unchanged `TREE_MAX_HEIGHT`
bound); if that relaxed mask is also empty the function returns `[]`
instead of failing.  The fixed thresholds are wider than the default
configuration (buffer 2.0, slope 35) but NOT wider for every
configuration, as the counterexample shows. -/
theorem C9_amended_thm (prims : MathPrims) (td : TerrainData) (cfg : Config) (rng : ℕ → ℚ)
    (hzero : (createTreeSuitabilityMask td.elevation
        (calculateSlopes prims td.elevation td.width td.height td.cellSize)
        td.width td.height td.seaLevel cfg).countP (fun v => decide (0 < v)) = 0) :
    (generateTreePositions prims td cfg rng =
      if (relaxedTreeMask td.elevation
            (calculateSlopes prims td.elevation td.width td.height td.cellSize)
            (td.width * td.height) td.seaLevel (jsOr cfg.TREE_MAX_HEIGHT 60)).countP
          (fun v => decide (0 < v)) = 0 then []
      else
        treePlacementFromMask prims td cfg rng
          (relaxedTreeMask td.elevation
            (calculateSlopes prims td.elevation td.width td.height td.cellSize)
            (td.width * td.height) td.seaLevel (jsOr cfg.TREE_MAX_HEIGHT 60))
          ((relaxedTreeMask td.elevation
            (calculateSlopes prims td.elevation td.width td.height td.cellSize)
            (td.width * td.height) td.seaLevel (jsOr cfg.TREE_MAX_HEIGHT 60)).countP
            (fun v => decide (0 < v)))) ∧
    (∀ i, i < td.width * td.height →
      ((relaxedTreeMask td.elevation
          (calculateSlopes prims td.elevation td.width td.height td.cellSize)
          (td.width * td.height) td.seaLevel (jsOr cfg.TREE_MAX_HEIGHT 60)).getD i 0 = 1 ↔
        (td.seaLevel + 1 < td.elevation.getD i 0 ∧
         td.elevation.getD i 0 < jsOr cfg.TREE_MAX_HEIGHT 60 ∧
         (calculateSlopes prims td.elevation td.width td.height td.cellSize).getD i 0 ≤ 45))) := by
  constructor
  · rw [generateTreePositions]
    dsimp only
    rw [if_pos hzero]
  · intro i hi
    rw [relaxedTreeMask]
    rw [List.getD_eq_getElem _ _ (by simpa using hi)]
    rw [List.getElem_map, List.getElem_range]
    by_cases hcond : (td.seaLevel + 1 < td.elevation.getD i 0 ∧
        td.elevation.getD i 0 < jsOr cfg.TREE_MAX_HEIGHT 60 ∧
        (calculateSlopes prims td.elevation td.width td.height td.cellSize).getD i 0 ≤ 45)
    · rw [if_pos hcond]
      exact iff_of_true rfl hcond
    · rw [if_neg hcond]
      exact iff_of_false (by norm_num) hcond

/-- C9 amended witness: a single cell of height 0 — strictly unsuitable and
also relaxed-unsuitable — so the run performs the relaxation pass and
returns the empty placement list. -/
theorem C9_amended_witness :
    (createTreeSuitabilityMask tdC9.elevation
        (calculateSlopes primsW tdC9.elevation tdC9.width tdC9.height tdC9.cellSize)
        tdC9.width tdC9.height tdC9.seaLevel cfgCE).countP (fun v => decide (0 < v)) = 0 ∧
    generateTreePositions primsW tdC9 cfgCE (fun _ => 0) = [] := by
  have hzero : (createTreeSuitabilityMask tdC9.elevation
      (calculateSlopes primsW tdC9.elevation tdC9.width tdC9.height tdC9.cellSize)
      tdC9.width tdC9.height tdC9.seaLevel cfgCE).countP (fun v => decide (0 < v)) = 0 := by
    rw [show calculateSlopes primsW tdC9.elevation tdC9.width tdC9.height tdC9.cellSize =
      [0] from rfl]
    norm_num [createTreeSuitabilityMask, tdC9, cfgCE, jsOr, List.range_succ]
  refine ⟨hzero, ?_⟩
  obtain ⟨h1, _⟩ := C9_amended_thm primsW tdC9 cfgCE (fun _ => 0) hzero
  rw [h1]
  rw [if_pos ?hc]
  case hc =>
    rw [show calculateSlopes primsW tdC9.elevation tdC9.width tdC9.height tdC9.cellSize =
      [0] from rfl]
    norm_num [relaxedTreeMask, tdC9, cfgCE, jsOr, List.range_succ]

/-- C9 counterexample: with `TREE_MAX_SLOPE = 50` a flat-height cell of
slope 48 passes the strict suitability test but fails the relaxed one
(fixed limit 45), and the relaxed slope threshold `45` is smaller than the
configured `50` — refuting the claim that the relaxation uses wider
thresholds (in particular a larger maximum slope) for every
configuration. -/
theorem C9_counterexample :
    createTreeSuitabilityMask [10] [48] 1 1 0 cfgC9 = [1] ∧
    relaxedTreeMask [10] [48] 1 0 (jsOr cfgC9.TREE_MAX_HEIGHT 60) = [0] ∧
    ¬(jsOr cfgC9.TREE_MAX_SLOPE 35 ≤ 45) := by
  refine ⟨?_, ?_, ?_⟩
  · norm_num [createTreeSuitabilityMask, cfgC9, jsOr, List.range_succ]
  · norm_num [relaxedTreeMask, List.range_succ]
  · norm_num [jsOr, cfgC9]
